import Mathlib

/-!
Verification development for the Slitherlink-Squares solver.

The definitions below are a shallow embedding of the Python sources under
src/: the enums (src/src/puzzle/enums.py), the pure topology calculator
(src/src/puzzle/board_tools.py), the Board state (src/src/puzzle/board.py),
CellInfo (src/src/puzzle/cell_info.py), the solver primitives
(src/src/puzzle/solver/solver.py, src/src/puzzle/solver/tools.py) and the
poke propagation submodule (src/src/puzzle/solver/sub/poke.py).

Conventions used throughout:
- Python integers are modelled as Int (indices may be negative in the
  sources, e.g. borderIdx - (cols + 1)).
- Python exceptions (ValueError, InvalidBoardException, AssertionError)
  are modelled by Except String; a raised exception is an error result.
- Python list indexing xs[i] is modelled by a total lookup with a default
  value. All theorems that depend on a lookup carry hypotheses keeping the
  index in range, so the default is never exercised there; out-of-range
  behaviour is modelled with Option lookups where a claim is about index
  errors (Board.getBorderStatus).
- Python sets are modelled as lists: membership tests and insertion are
  the only operations the sources perform on them.
- The recursive poke propagation is modelled with an explicit fuel
  parameter; the theorems hold for every fuel value that does not run out.
-/

/-- BorderStatus from src/src/puzzle/enums.py: UNSET = 0, ACTIVE = 1, BLANK = 2. -/
inductive BorderStatus where
  | UNSET
  | ACTIVE
  | BLANK
deriving DecidableEq, Repr, Inhabited

/-- CardinalDirection from src/src/puzzle/enums.py: TOP, RIGHT, BOT, LEFT. -/
inductive CardinalDirection where
  | TOP
  | RIGHT
  | BOT
  | LEFT
deriving DecidableEq, Repr, Inhabited

/-- DiagonalDirection from src/src/puzzle/enums.py: ULEFT, URIGHT, LRIGHT, LLEFT. -/
inductive DiagonalDirection where
  | ULEFT
  | URIGHT
  | LRIGHT
  | LLEFT
deriving DecidableEq, Repr, Inhabited

/-- CornerEntry from src/src/puzzle/enums.py: POKE, SMOOTH, UNKNOWN. -/
inductive CornerEntry where
  | POKE
  | SMOOTH
  | UNKNOWN
deriving DecidableEq, Repr, Inhabited

/-- DiagonalDirection.opposite from src/src/puzzle/enums.py. -/
def DiagonalDirection.opposite : DiagonalDirection → DiagonalDirection
  | .URIGHT => .LLEFT
  | .LRIGHT => .ULEFT
  | .LLEFT => .URIGHT
  | .ULEFT => .LRIGHT

/-- Iteration order of `for dxn in DiagonalDirection` (IntEnum value order). -/
def diagonalDirections : List DiagonalDirection :=
  [.ULEFT, .URIGHT, .LRIGHT, .LLEFT]

/-- Iteration order of `for dxn in CardinalDirection` (IntEnum value order). -/
def cardinalDirections : List CardinalDirection :=
  [.TOP, .RIGHT, .BOT, .LEFT]

/-- Numeric value of a DiagonalDirection (its IntEnum value), used as a list index. -/
def DiagonalDirection.toIdx : DiagonalDirection → Nat
  | .ULEFT => 0
  | .URIGHT => 1
  | .LRIGHT => 2
  | .LLEFT => 3

/-- Static class attribute BoardTools.rows (src/src/puzzle/board_tools.py line 25). -/
def boardToolsRowsDefault : Int := 25

/-- Static class attribute BoardTools.cols (src/src/puzzle/board_tools.py line 27). -/
def boardToolsColsDefault : Int := 25

/-- The function _numBorders from src/src/puzzle/board_tools.py. -/
def numBorders (rows cols : Int) : Int :=
  (((cols * 2) + 1) * rows) + cols

/-- The function _isValidCellIdx from src/src/puzzle/board_tools.py. -/
def isValidCellIdx (rows cols row col : Int) : Bool :=
  row ≥ 0 && row < rows && col ≥ 0 && col < cols

/-- The function _isValidBorderIdx from src/src/puzzle/board_tools.py. -/
def isValidBorderIdx (rows cols borderIdx : Int) : Bool :=
  borderIdx ≥ 0 && borderIdx < numBorders rows cols

/-- The while loop inside _isBorderHorizontal (src/src/puzzle/board_tools.py
lines 247-256), with an explicit fuel parameter. The loop increases the
threshold by cols + 1 when the current band is horizontal and by cols
otherwise, toggling the band kind each time; it terminates for every
cols >= 1, which the fuel bound below always covers. -/
def isBorderHorizontalLoop (cols borderIdx : Int) :
    Int → Bool → Nat → Bool
  | _, isHorizontal, 0 => isHorizontal
  | thresholdIdx, isHorizontal, fuel + 1 =>
    if borderIdx < thresholdIdx then
      isHorizontal
    else if isHorizontal then
      isBorderHorizontalLoop cols borderIdx (thresholdIdx + cols + 1) false fuel
    else
      isBorderHorizontalLoop cols borderIdx (thresholdIdx + cols) true fuel

/-- The function _isBorderHorizontal from src/src/puzzle/board_tools.py
(lines 234-257). The fuel 2 * borderIdx.toNat + 2 suffices for every
cols >= 1 (each pair of loop iterations raises the threshold by
2 * cols + 1 >= 3). -/
def isBorderHorizontal (cols borderIdx : Int) : Bool :=
  isBorderHorizontalLoop cols borderIdx cols true (2 * borderIdx.toNat + 2)

/-- The function _getBorderIdx from src/src/puzzle/board_tools.py. -/
def getBorderIdx (cols row col : Int) (direction : CardinalDirection) : Int :=
  let idx := ((cols * 2) + 1) * row
  match direction with
  | .TOP => idx + col
  | .LEFT => idx + cols + col
  | .RIGHT => idx + cols + col + 1
  | .BOT => idx + (cols * 2) + 1 + col

/-- The function _getCellBorders from src/src/puzzle/board_tools.py:
the (top, right, bot, left) border indices of a cell. -/
def getCellBorders (cols row col : Int) : Int × Int × Int × Int :=
  (getBorderIdx cols row col .TOP,
   getBorderIdx cols row col .RIGHT,
   getBorderIdx cols row col .BOT,
   getBorderIdx cols row col .LEFT)

/-- The function _getConnectedBorders from src/src/puzzle/board_tools.py
(lines 260-325). Each Python conditional append becomes the concatenation
of an optional singleton, preserving the append order of the source. -/
def getConnectedBorders (rows cols borderIdx : Int) : List Int × List Int :=
  if isBorderHorizontal cols borderIdx then
    let leftTop :=
      (if isValidBorderIdx rows cols (borderIdx - (cols + 1)) then
        [borderIdx - (cols + 1)] else []) ++
      (if isBorderHorizontal cols (borderIdx - 1) then
        (if isValidBorderIdx rows cols (borderIdx - 1) then [borderIdx - 1] else [])
       else []) ++
      (if isValidBorderIdx rows cols (borderIdx + cols) then
        [borderIdx + cols] else [])
    let rightBot :=
      (if isValidBorderIdx rows cols (borderIdx - cols) then
        [borderIdx - cols] else []) ++
      (if isBorderHorizontal cols (borderIdx + 1) then
        (if isValidBorderIdx rows cols (borderIdx + 1) then [borderIdx + 1] else [])
       else []) ++
      (if isValidBorderIdx rows cols (borderIdx + cols + 1) then
        [borderIdx + cols + 1] else [])
    (leftTop, rightBot)
  else
    let leftTop :=
      (if isValidBorderIdx rows cols (borderIdx - (cols + 1)) then
        (if isBorderHorizontal cols (borderIdx - (cols + 1)) then
          [borderIdx - (cols + 1)] else [])
       else []) ++
      (if isValidBorderIdx rows cols (borderIdx - ((cols * 2) + 1)) then
        [borderIdx - ((cols * 2) + 1)] else []) ++
      (if isValidBorderIdx rows cols (borderIdx - cols) then
        (if isBorderHorizontal cols (borderIdx - cols) then
          [borderIdx - cols] else [])
       else [])
    let rightBot :=
      (if isValidBorderIdx rows cols (borderIdx + cols) then
        (if isBorderHorizontal cols (borderIdx + cols) then
          [borderIdx + cols] else [])
       else []) ++
      (if isValidBorderIdx rows cols (borderIdx + ((cols * 2) + 1)) then
        [borderIdx + ((cols * 2) + 1)] else []) ++
      (if isValidBorderIdx rows cols (borderIdx + cols + 1) then
        (if isBorderHorizontal cols (borderIdx + cols + 1) then
          [borderIdx + cols + 1] else [])
       else [])
    (leftTop, rightBot)

/-- The function _getConnectedBordersList from src/src/puzzle/board_tools.py. -/
def getConnectedBordersList (rows cols borderIdx : Int) : List Int :=
  let conn := getConnectedBorders rows cols borderIdx
  conn.1 ++ conn.2

/-- The function _getCommonVertex from src/src/puzzle/board_tools.py
(lines 345-357). -/
def getCommonVertex (rows cols borderIdx1 borderIdx2 : Int) : Option (List Int) :=
  let conn := getConnectedBorders rows cols borderIdx1
  if borderIdx2 ∈ conn.1 then some conn.1
  else if borderIdx2 ∈ conn.2 then some conn.2
  else none

/-- The function _getCornerBorderIndices from src/src/puzzle/board_tools.py. -/
def getCornerBorderIndices (cols row col : Int) (cornerDir : DiagonalDirection) :
    Int × Int :=
  let dirs : CardinalDirection × CardinalDirection :=
    match cornerDir with
    | .ULEFT => (.TOP, .LEFT)
    | .URIGHT => (.TOP, .RIGHT)
    | .LRIGHT => (.BOT, .RIGHT)
    | .LLEFT => (.BOT, .LEFT)
  (getBorderIdx cols row col dirs.1, getBorderIdx cols row col dirs.2)

/-- The function _getArms from src/src/puzzle/board_tools.py (lines 392-426). -/
def getArms (rows cols row col : Int) (cornerDir : DiagonalDirection) : List Int :=
  let topBdrIdx := getBorderIdx cols row col .TOP
  let rightBdrIdx := getBorderIdx cols row col .RIGHT
  let botBdrIdx := getBorderIdx cols row col .BOT
  let leftBdrIdx := getBorderIdx cols row col .LEFT
  match cornerDir with
  | .ULEFT =>
    (getConnectedBorders rows cols topBdrIdx).1.filter
      (fun bdrIdx => bdrIdx ≠ topBdrIdx ∧ bdrIdx ≠ leftBdrIdx)
  | .URIGHT =>
    (getConnectedBorders rows cols topBdrIdx).2.filter
      (fun bdrIdx => bdrIdx ≠ topBdrIdx ∧ bdrIdx ≠ rightBdrIdx)
  | .LRIGHT =>
    (getConnectedBorders rows cols botBdrIdx).2.filter
      (fun bdrIdx => bdrIdx ≠ botBdrIdx ∧ bdrIdx ≠ rightBdrIdx)
  | .LLEFT =>
    (getConnectedBorders rows cols botBdrIdx).1.filter
      (fun bdrIdx => bdrIdx ≠ botBdrIdx ∧ bdrIdx ≠ leftBdrIdx)

/-- The function _getCellIdxAtDiagCorner from src/src/puzzle/board_tools.py. -/
def getCellIdxAtDiagCorner (rows cols row col : Int) (dxn : DiagonalDirection) :
    Option (Int × Int) :=
  let target : Int × Int :=
    match dxn with
    | .ULEFT => (row - 1, col - 1)
    | .URIGHT => (row - 1, col + 1)
    | .LRIGHT => (row + 1, col + 1)
    | .LLEFT => (row + 1, col - 1)
  if isValidCellIdx rows cols target.1 target.2 then some target else none

/-- The function _getCellIdxOfAdjCell from src/src/puzzle/board_tools.py.
The source returns a pair of None on an invalid target; this is modelled
as an Option of the pair. -/
def getCellIdxOfAdjCell (rows cols row col : Int) (dxn : CardinalDirection) :
    Option (Int × Int) :=
  let target : Int × Int :=
    match dxn with
    | .TOP => (row - 1, col)
    | .RIGHT => (row, col + 1)
    | .BOT => (row + 1, col)
    | .LEFT => (row, col - 1)
  if isValidCellIdx rows cols target.1 target.2 then some target else none

/-- The Board state from src/src/puzzle/board.py. Mutable Python attributes
become fields; the solver functions below return updated copies. -/
structure Board where
  rows : Int
  cols : Int
  cells : List (List (Option Int))
  borders : List BorderStatus
  cellGroups : List (List (Option Int))
  pokes : List (Int × Int × DiagonalDirection)
  cornerEntries : List (List (List CornerEntry))
  knownCornerEntries : List Int
  reqCells : List (Int × Int)
  isClone : Bool
deriving DecidableEq, Repr, Inhabited

/-- A rows-by-cols matrix of None, as built by Board.__init__ for
cells and cellGroups. -/
def noneMatrix (rows cols : Int) : List (List (Option Int)) :=
  List.replicate rows.toNat (List.replicate cols.toNat none)

/-- The all-UNKNOWN corner-entry matrix built by Board.__init__
(one UNKNOWN entry per cell per diagonal direction). -/
def unknownCornerEntryMatrix (rows cols : Int) : List (List (List CornerEntry)) :=
  List.replicate rows.toNat
    (List.replicate cols.toNat
      [CornerEntry.UNKNOWN, CornerEntry.UNKNOWN, CornerEntry.UNKNOWN, CornerEntry.UNKNOWN])

/-- The initial all-UNSET border list built by Board.__init__. -/
def initialBorderList (rows cols : Int) : List BorderStatus :=
  List.replicate (numBorders rows cols).toNat BorderStatus.UNSET

/-- The reqCells set built by Board.__init__ (lines 54-59): the (row, col)
of every cell whose entry in cells is not None, in row-major order. -/
def computeReqCells (rows cols : Int) (cells : List (List (Option Int))) :
    List (Int × Int) :=
  ((List.range rows.toNat).map fun r =>
    ((List.range cols.toNat).filterMap fun c =>
      match (cells.getD r []).getD c none with
      | some _ => some ((r : Int), (c : Int))
      | none => none)).flatten

/-- Board.__init__ from src/src/puzzle/board.py (lines 15-59), including its
three ValueError checks. The short-circuit evaluation of
len(cells) != rows or len(cells[0]) != cols is preserved. -/
def boardInit (rows cols : Int) (cellsArg : Option (List (List (Option Int))))
    (bordersArg : Option (List BorderStatus)) : Except String Board :=
  if rows ≤ 0 ∨ cols ≤ 0 then
    .error "ValueError: Row or column must be a positive number."
  else if cellsArg.isSome ∧
      (((cellsArg.getD []).length : Int) ≠ rows ∨
       (((cellsArg.getD []).getD 0 []).length : Int) ≠ cols) then
    .error "ValueError: The given cell data does not match the board."
  else if bordersArg.isSome ∧
      (((bordersArg.getD []).length : Int) ≠ numBorders rows cols) then
    .error "ValueError: The given border data has invalid length."
  else
    let cells := match cellsArg with
      | some cs => cs
      | none => noneMatrix rows cols
    .ok {
      rows := rows
      cols := cols
      isClone := false
      cells := cells
      borders := match bordersArg with
        | some bs => bs
        | none => initialBorderList rows cols
      cellGroups := noneMatrix rows cols
      pokes := []
      cornerEntries := unknownCornerEntryMatrix rows cols
      knownCornerEntries := []
      reqCells := match cellsArg with
        | some cs => computeReqCells rows cols cs
        | none => []
    }

/-- The per-character parse inside Board.fromString:
int(ch) for a decimal digit, None for a dot, ValueError otherwise. -/
def charToCell (ch : Char) : Except String (Option Int) :=
  if ch = '.' then .ok none
  else if ch.isDigit then .ok (some ((ch.toNat : Int) - ('0'.toNat : Int)))
  else .error "ValueError: invalid literal for int"

/-- The row-building loop of Board.fromString (lines 88-96): consume the
characters row by row, cols characters per row, failing at the first
character that is neither a digit nor a dot. -/
def buildCells : Nat → Nat → List Char → Except String (List (List (Option Int)))
  | 0, _, _ => .ok []
  | r + 1, c, s => do
    let rowArr ← (s.take c).mapM charToCell
    let rest ← buildCells r c (s.drop c)
    .ok (rowArr :: rest)

/-- Board.fromString from src/src/puzzle/board.py (lines 71-98). -/
def Board.fromString (rows cols : Int) (cellDataString : List Char) :
    Except String Board :=
  if rows ≤ 0 ∨ cols ≤ 0 then
    .error "ValueError: Row or column must be a positive number."
  else if ((cellDataString.length : Int) ≠ rows * cols) then
    .error "ValueError: The given cell data does not match the board."
  else do
    let cells ← buildCells rows.toNat cols.toNat cellDataString
    boardInit rows cols (some cells) none

/-- Board.isComplete from src/src/puzzle/board.py: no border is UNSET. -/
def Board.isComplete (b : Board) : Bool :=
  b.borders.all (fun bdr => !(bdr == BorderStatus.UNSET))

/-- The entrywise corner-entry copy loop of Board.clone (lines 137-140):
the fresh UNKNOWN matrix of the clone is overwritten at every
(row, col, dxn) with the corresponding entry of the source matrix. For a
well-formed source matrix the result is equal to it. -/
def cloneCornerEntries (rows cols : Int) (src : List (List (List CornerEntry))) :
    List (List (List CornerEntry)) :=
  (List.range rows.toNat).map fun r =>
    (List.range cols.toNat).map fun c =>
      diagonalDirections.map fun d =>
        (((src.getD r []).getD c []).getD d.toIdx CornerEntry.UNKNOWN)

/-- Board.clone from src/src/puzzle/board.py (lines 128-143): a fresh Board
built from copies of cells and borders (hence fresh all-None cellGroups and
an empty knownCornerEntries set), with the poke set copied, the corner
entries copied entrywise, and isClone set to True. -/
def Board.clone (b : Board) : Except String Board := do
  let clonedBoard ← boardInit b.rows b.cols (some b.cells) (some b.borders)
  .ok { clonedBoard with
        pokes := b.pokes
        cornerEntries := cloneCornerEntries b.rows b.cols b.cornerEntries
        isClone := true }

/-- Lookup board.borders at a Python int index. The sources only read
borders at indices produced by the topology functions for valid cells, so
the default value is never exercised in the theorems below (each carries
the hypotheses that keep the index in range). -/
def bdrAt (b : Board) (i : Int) : BorderStatus :=
  if 0 ≤ i then b.borders.getD i.toNat BorderStatus.UNSET else BorderStatus.UNSET

/-- Lookup board.cells at a cell index (Python board.cells of the sources). -/
def cellsAt (b : Board) (row col : Int) : Option Int :=
  if 0 ≤ row ∧ 0 ≤ col then (b.cells.getD row.toNat []).getD col.toNat none
  else none

/-- Lookup board.cellGroups at a cell index. -/
def cgAt (b : Board) (row col : Int) : Option Int :=
  if 0 ≤ row ∧ 0 ≤ col then (b.cellGroups.getD row.toNat []).getD col.toNat none
  else none

/-- Write board.borders at a Python int index (in-range in all uses below). -/
def bordersSet (b : Board) (i : Int) (s : BorderStatus) : Board :=
  { b with borders := b.borders.set i.toNat s }

/-- Write board.cornerEntries at (row, col, dxn). -/
def cornerEntriesSet (b : Board) (row col : Int) (d : DiagonalDirection)
    (v : CornerEntry) : Board :=
  let rowList := b.cornerEntries.getD row.toNat []
  let cellList := rowList.getD col.toNat []
  { b with cornerEntries :=
      b.cornerEntries.set row.toNat (rowList.set col.toNat (cellList.set d.toIdx v)) }

/-- Board.getBorderStatus from src/src/puzzle/board.py (lines 196-209): the
border index is computed by the STATIC BoardTools.getBorderIdx (with the
process-wide static column count sCols), then board.borders is indexed; an
out-of-range index is a Python IndexError, modelled here as none. -/
def Board.getBorderStatus (sCols : Int) (b : Board) (row col : Int)
    (direction : CardinalDirection) : Option BorderStatus :=
  let idx := getBorderIdx sCols row col direction
  if 0 ≤ idx then b.borders.get? idx.toNat else none

/-- Board.getCornerStatus from src/src/puzzle/board.py (lines 211-226),
with the same static-dimension indexing and IndexError model. -/
def Board.getCornerStatus (sCols : Int) (b : Board) (row col : Int)
    (dxn : DiagonalDirection) : Option (BorderStatus × BorderStatus) :=
  let bdrs := getCornerBorderIndices sCols row col dxn
  match (if 0 ≤ bdrs.1 then b.borders.get? bdrs.1.toNat else none),
        (if 0 ≤ bdrs.2 then b.borders.get? bdrs.2.toNat else none) with
  | some s1, some s2 => some (s1, s2)
  | _, _ => none

/-- Board.getArmsStatus from src/src/puzzle/board.py (lines 228-241),
with the same static-dimension indexing and IndexError model. -/
def Board.getArmsStatus (sRows sCols : Int) (b : Board) (row col : Int)
    (dxn : DiagonalDirection) : Option (List BorderStatus) :=
  (getArms sRows sCols row col dxn).mapM
    (fun bdrIdx => if 0 ≤ bdrIdx then b.borders.get? bdrIdx.toNat else none)

/-- CellInfo from src/src/puzzle/cell_info.py, restricted to the fields the
functions verified here read (the lazily computed arms fields are computed
only by code outside the verified claims). Counts are the lengths of the
corresponding filtered index lists, exactly as the counting loop of
CellInfo.getBorderStats produces them. -/
structure CellInfo where
  row : Int
  col : Int
  reqNum : Option Int
  cellGroup : Option Int
  topIdx : Int
  rightIdx : Int
  botIdx : Int
  leftIdx : Int
  bdrIndices : List Int
  topBdr : BorderStatus
  rightBdr : BorderStatus
  botBdr : BorderStatus
  leftBdr : BorderStatus
  bdrUnsetCount : Int
  bdrActiveCount : Int
  bdrBlankCount : Int
  unsetBorders : List Int
  activeBorders : List Int
  blankBorders : List Int
  cornerBdrs : List (Int × Int)
deriving DecidableEq, Repr, Inhabited

/-- CellInfo.init from src/src/puzzle/cell_info.py: capture the required
number, the cell group, the four border indices (computed through the
static topology with column count sCols) and their statuses, and the
UNSET/ACTIVE/BLANK counts and index sets. -/
def cellInfoInit (sCols : Int) (b : Board) (row col : Int) : CellInfo :=
  let idxs := getCellBorders sCols row col
  let topIdx := idxs.1
  let rightIdx := idxs.2.1
  let botIdx := idxs.2.2.1
  let leftIdx := idxs.2.2.2
  let bdrIndices := [topIdx, rightIdx, botIdx, leftIdx]
  let unsetBorders := bdrIndices.filter (fun i => bdrAt b i == BorderStatus.UNSET)
  let activeBorders := bdrIndices.filter (fun i => bdrAt b i == BorderStatus.ACTIVE)
  let blankBorders := bdrIndices.filter (fun i => bdrAt b i == BorderStatus.BLANK)
  { row := row
    col := col
    reqNum := cellsAt b row col
    cellGroup := cgAt b row col
    topIdx := topIdx
    rightIdx := rightIdx
    botIdx := botIdx
    leftIdx := leftIdx
    bdrIndices := bdrIndices
    topBdr := bdrAt b topIdx
    rightBdr := bdrAt b rightIdx
    botBdr := bdrAt b botIdx
    leftBdr := bdrAt b leftIdx
    bdrUnsetCount := (unsetBorders.length : Int)
    bdrActiveCount := (activeBorders.length : Int)
    bdrBlankCount := (blankBorders.length : Int)
    unsetBorders := unsetBorders
    activeBorders := activeBorders
    blankBorders := blankBorders
    cornerBdrs := [(topIdx, leftIdx), (topIdx, rightIdx),
                   (botIdx, rightIdx), (botIdx, leftIdx)] }

/-- SolverTools.getStatusCount from src/src/puzzle/solver/tools.py:
the number of UNSET, ACTIVE and BLANK borders among the given indices. -/
def getStatusCount (b : Board) (bdrIdxList : List Int) : Int × Int × Int :=
  (((bdrIdxList.filter (fun i => bdrAt b i == BorderStatus.UNSET)).length : Int),
   ((bdrIdxList.filter (fun i => bdrAt b i == BorderStatus.ACTIVE)).length : Int),
   ((bdrIdxList.filter (fun i => bdrAt b i == BorderStatus.BLANK)).length : Int))

/-- Solver.setBorder from src/src/puzzle/solver/solver.py (lines 58-77):
set an UNSET border and return True; return False (board untouched) when
the border already has the requested status; raise InvalidBoardException
when the border is already set to a different status. The source raises
before any mutation, so the error case leaves the Python board unchanged. -/
def setBorder (board : Board) (borderIdx : Int) (newStatus : BorderStatus) :
    Except String (Board × Bool) :=
  if bdrAt board borderIdx = BorderStatus.UNSET then
    .ok (bordersSet board borderIdx newStatus, true)
  else if bdrAt board borderIdx ≠ newStatus then
    .error "InvalidBoardException"
  else
    .ok (board, false)

/-- One of the two loops of Solver.fillOrRemoveRemainingUnsetBorders: set
every border in the list to the given status, unconditionally marking
foundMove on every iteration, exactly as the source loops do. -/
def fillOrRemoveLoop (st : BorderStatus) :
    Board → List Int → Bool → Except String (Board × Bool)
  | b, [], foundMove => .ok (b, foundMove)
  | b, bdrIdx :: rest, _ => do
    let r ← setBorder b bdrIdx st
    fillOrRemoveLoop st r.1 rest true

/-- Solver.fillOrRemoveRemainingUnsetBorders from
src/src/puzzle/solver/solver.py (lines 619-641). -/
def fillOrRemoveRemainingUnsetBorders (b : Board) (cellInfo : CellInfo) :
    Except String (Board × Bool) :=
  match cellInfo.reqNum with
  | none => .ok (b, false)
  | some reqNum =>
    if cellInfo.bdrUnsetCount > 0 then
      if cellInfo.bdrUnsetCount + cellInfo.bdrActiveCount = reqNum then
        fillOrRemoveLoop BorderStatus.ACTIVE b cellInfo.unsetBorders false
      else if cellInfo.bdrActiveCount = reqNum then
        fillOrRemoveLoop BorderStatus.BLANK b cellInfo.unsetBorders false
      else
        .ok (b, false)
    else
      .ok (b, false)

/-- Solver.processCell from src/src/puzzle/solver/solver.py (lines 521-617),
with the rule calls after the fillOrRemoveRemainingUnsetBorders block
(source lines 565-616: the 3-cell and 2-cell poke rules, the pattern
checks, the indirect-poke checks and the continuous-unset-border check)
abstracted as the parameter rest. The theorems below hold for EVERY rest,
in particular for the concrete remainder of the source function. The
prefix embedded concretely here is: the CellInfo snapshot, the
four-active-borders check, the two requirement checks that raise
InvalidBoardException, and the fillOrRemoveRemainingUnsetBorders call that
returns True immediately when it moved. -/
def processCellWith (rest : Board → CellInfo → Except String (Board × Bool))
    (sCols : Int) (board : Board) (row col : Int) :
    Except String (Board × Bool) :=
  let cellInfo := cellInfoInit sCols board row col
  let reqNum := cellsAt board row col
  if cellInfo.bdrActiveCount = 4 then
    .error "InvalidBoardException: cell has 4 active borders"
  else
    match reqNum with
    | none => rest board cellInfo
    | some req =>
      if cellInfo.bdrActiveCount > req then
        .error "InvalidBoardException: active borders exceed the requirement"
      else if cellInfo.bdrUnsetCount + cellInfo.bdrActiveCount < req then
        .error "InvalidBoardException: not enough unset borders for the requirement"
      else do
        let r ← fillOrRemoveRemainingUnsetBorders board cellInfo
        if r.2 then .ok (r.1, true)
        else rest r.1 cellInfo

/-- The reqCells loop of Solver.simpleValidation
(src/src/puzzle/solver/solver.py lines 278-287): every constrained cell
must have at most reqNum ACTIVE borders and at least reqNum ACTIVE plus
UNSET borders. The reqNum of a cell in reqCells is never None (reqCells
is built from the non-None cells), so the none branch is unreachable. -/
def simpleValidationCells (sCols : Int) (b : Board) : Bool :=
  b.reqCells.all fun rc =>
    let cellInfo := cellInfoInit sCols b rc.1 rc.2
    match cellInfo.reqNum with
    | none => true
    | some req =>
      !(cellInfo.bdrActiveCount > req) &&
      !(cellInfo.bdrActiveCount + cellInfo.bdrUnsetCount < req)

/-- The border loop of Solver.simpleValidation
(src/src/puzzle/solver/solver.py lines 289-306): every ACTIVE border must
have, at each of its two endpoints, at least one non-BLANK neighbouring
border and at most one ACTIVE neighbouring border. -/
def simpleValidationBorders (sRows sCols : Int) (b : Board) : Bool :=
  (List.range b.borders.length).all fun bdrIdx =>
    if b.borders.getD bdrIdx BorderStatus.UNSET == BorderStatus.ACTIVE then
      let conn := getConnectedBorders sRows sCols (bdrIdx : Int)
      let c0 := getStatusCount b conn.1
      let c1 := getStatusCount b conn.2
      !(c0.2.2 = (conn.1.length : Int)) && !(c1.2.2 = (conn.2.length : Int)) &&
      !(c0.2.1 > 1) && !(c1.2.1 > 1)
    else
      true

/-- Solver.simpleValidation from src/src/puzzle/solver/solver.py
(lines 267-308): the early-return loops of the source are the conjunction
of the two loop checks. The function contains NO connectivity or
loop-count check. -/
def simpleValidation (sRows sCols : Int) (b : Board) : Bool :=
  simpleValidationCells sCols b && simpleValidationBorders sRows sCols b

/-- Loop pattern `for bdrIdx in xs: if Solver.setBorder(board, bdrIdx, st):
foundMove = True` used by several blocks of the poke handlers. -/
def setBordersAccum (st : BorderStatus) :
    Board → List Int → Bool → Except String (Board × Bool)
  | b, [], foundMove => .ok (b, foundMove)
  | b, bdrIdx :: rest, foundMove => do
    let r ← setBorder b bdrIdx st
    setBordersAccum st r.1 rest (foundMove || r.2)

/-- Loop pattern `for bdrIdx in xs: if board.borders[bdrIdx] == UNSET:
if Solver.setBorder(board, bdrIdx, st): foundMove = True` used by the
3-cell arm block of the poke handlers. -/
def setUnsetBordersAccum (st : BorderStatus) :
    Board → List Int → Bool → Except String (Board × Bool)
  | b, [], foundMove => .ok (b, foundMove)
  | b, bdrIdx :: rest, foundMove =>
    if bdrAt b bdrIdx = BorderStatus.UNSET then do
      let r ← setBorder b bdrIdx st
      setUnsetBordersAccum st r.1 rest (foundMove || r.2)
    else
      setUnsetBordersAccum st b rest foundMove

/-- Loop pattern `for bdrIdx in arms: if Solver.setBorder(board, bdrIdx,
ACTIVE): return True` followed by `return False`, used by the
out-of-grid branch of initiatePoke. -/
def activateFirstLoop : Board → List Int → Except String (Board × Bool)
  | b, [] => .ok (b, false)
  | b, bdrIdx :: rest => do
    let r ← setBorder b bdrIdx BorderStatus.ACTIVE
    if r.2 then .ok (r.1, true) else activateFirstLoop r.1 rest

/-- The corner step of handleCellPoke in src/src/puzzle/solver/sub/poke.py
(lines 96-110): on the poked corner, an ACTIVE border blanks the other
border, otherwise a BLANK border activates the other border. -/
def pokeCornerStep (sCols : Int) (b : Board) (row col : Int)
    (dxn : DiagonalDirection) : Except String (Board × Bool) :=
  let bdrs := getCornerBorderIndices sCols row col dxn
  let bdrStat1 := bdrAt b bdrs.1
  let bdrStat2 := bdrAt b bdrs.2
  if bdrStat1 = BorderStatus.ACTIVE then
    setBorder b bdrs.2 BorderStatus.BLANK
  else if bdrStat2 = BorderStatus.ACTIVE then
    setBorder b bdrs.1 BorderStatus.BLANK
  else if bdrStat1 = BorderStatus.BLANK then
    setBorder b bdrs.2 BorderStatus.ACTIVE
  else if bdrStat2 = BorderStatus.BLANK then
    setBorder b bdrs.1 BorderStatus.ACTIVE
  else
    .ok (b, false)

/-- The row-edge sub-block of the boundary block of handleCellPoke in
src/src/puzzle/solver/sub/poke.py (lines 168-188). -/
def pokeBoundaryRowStep (sCols : Int) (b : Board) (row col : Int)
    (dxn : DiagonalDirection) : Except String (Board × Bool) :=
  if row = 0 then
    if dxn = DiagonalDirection.ULEFT ∧ col - 1 ≥ 0 then
      setBorder b (getBorderIdx sCols row (col - 1) .TOP) BorderStatus.ACTIVE
    else if dxn = DiagonalDirection.URIGHT ∧ col + 1 < b.cols then
      setBorder b (getBorderIdx sCols row (col + 1) .TOP) BorderStatus.ACTIVE
    else .ok (b, false)
  else if row = b.rows - 1 then
    if dxn = DiagonalDirection.LRIGHT ∧ col + 1 < b.cols then
      setBorder b (getBorderIdx sCols row (col + 1) .BOT) BorderStatus.ACTIVE
    else if dxn = DiagonalDirection.LLEFT ∧ col - 1 ≥ 0 then
      setBorder b (getBorderIdx sCols row (col - 1) .BOT) BorderStatus.ACTIVE
    else .ok (b, false)
  else .ok (b, false)

/-- The column-edge sub-block of the boundary block of handleCellPoke in
src/src/puzzle/solver/sub/poke.py (lines 190-210). -/
def pokeBoundaryColStep (sCols : Int) (b : Board) (row col : Int)
    (dxn : DiagonalDirection) : Except String (Board × Bool) :=
  if col = 0 then
    if dxn = DiagonalDirection.ULEFT ∧ row - 1 ≥ 0 then
      setBorder b (getBorderIdx sCols (row - 1) col .LEFT) BorderStatus.ACTIVE
    else if dxn = DiagonalDirection.LLEFT ∧ row + 1 < b.rows then
      setBorder b (getBorderIdx sCols (row + 1) col .LEFT) BorderStatus.ACTIVE
    else .ok (b, false)
  else if col = b.cols - 1 then
    if dxn = DiagonalDirection.URIGHT ∧ row - 1 ≥ 0 then
      setBorder b (getBorderIdx sCols (row - 1) col .RIGHT) BorderStatus.ACTIVE
    else if dxn = DiagonalDirection.LRIGHT ∧ row + 1 < b.rows then
      setBorder b (getBorderIdx sCols (row + 1) col .RIGHT) BorderStatus.ACTIVE
    else .ok (b, false)
  else .ok (b, false)

/-- The boundary block of handleCellPoke in src/src/puzzle/solver/sub/poke.py
(lines 158-210), entered only when no move was found yet and the poked cell
lies on the boundary: a poke through a grid corner raises
InvalidBoardException, and a poke along the boundary activates the
continuation border of the edge-adjacent neighbour (the row-edge cases
first, then the column-edge cases). -/
def pokeBoundaryStep (sCols : Int) (b : Board) (row col : Int)
    (dxn : DiagonalDirection) : Except String (Board × Bool) :=
  if row = 0 ∧ col = 0 ∧ dxn = DiagonalDirection.ULEFT then
    .error "InvalidBoardException: UL corner cell poked from the ULEFT"
  else if row = b.rows - 1 ∧ col = 0 ∧ dxn = DiagonalDirection.LLEFT then
    .error "InvalidBoardException: LL corner cell poked from the LLEFT"
  else if row = 0 ∧ col = b.cols - 1 ∧ dxn = DiagonalDirection.URIGHT then
    .error "InvalidBoardException: UR corner cell poked from the URIGHT"
  else if row = b.rows - 1 ∧ col = b.cols - 1 ∧ dxn = DiagonalDirection.LRIGHT then
    .error "InvalidBoardException: LR corner cell poked from the LRIGHT"
  else
    pokeBoundaryRowStep sCols b row col dxn >>= fun r1 =>
    pokeBoundaryColStep sCols r1.1 row col dxn >>= fun r2 =>
    .ok (r2.1, r1.2 || r2.2)

/-- The target cell of a poke leaving (origRow, origCol) toward dxn
(the dxn branch shared by both initiatePoke implementations). -/
def pokeTargetCell (origRow origCol : Int) : DiagonalDirection → Int × Int
  | .ULEFT => (origRow - 1, origCol - 1)
  | .URIGHT => (origRow - 1, origCol + 1)
  | .LRIGHT => (origRow + 1, origCol + 1)
  | .LLEFT => (origRow + 1, origCol - 1)

mutual

/-- The function initiatePoke from src/src/puzzle/solver/sub/poke.py
(lines 20-65): return False immediately when the (row, col, direction)
triple is already in the poke set of the board; otherwise record the
triple, mark the corner entries, and either propagate into the diagonal
neighbour (handleCellPoke) or, at the grid boundary, activate the single
external arm. The assert on the arm count is modelled as an error. -/
def pokeInitiatePoke (sRows sCols : Int) :
    Nat → Board → Int → Int → DiagonalDirection → Except String (Board × Bool)
  | 0, _, _, _, _ => .error "fuel exhausted"
  | fuel + 1, board, origRow, origCol, dxn =>
    if (origRow, origCol, dxn) ∈ board.pokes then
      .ok (board, false)
    else
      let board := { board with pokes := (origRow, origCol, dxn) :: board.pokes }
      let board := cornerEntriesSet board origRow origCol dxn CornerEntry.POKE
      let board :=
        if cellsAt board origRow origCol = some 2 then
          cornerEntriesSet board origRow origCol dxn.opposite CornerEntry.POKE
        else board
      let target := pokeTargetCell origRow origCol dxn
      if isValidCellIdx sRows sCols target.1 target.2 then
        pokeHandleCellPoke sRows sCols fuel board target.1 target.2 dxn.opposite
      else
        let arms := getArms sRows sCols origRow origCol dxn
        if arms.length ≥ 2 then
          .error "AssertionError: outer cell with more than 1 arm"
        else
          activateFirstLoop board arms

/-- The function handleCellPoke from src/src/puzzle/solver/sub/poke.py
(lines 72-212): mark the poked corner, run the corner step, then the
requirement-specific blocks (1-cell: blank the opposite corner; 2-cell:
activate the remaining opposite-corner border next to a BLANK one and
propagate the poke diagonally through initiatePoke; 3-cell: activate the
opposite corner and prune the arms, raising when more than one arm is
ACTIVE), and finally the boundary block when no move was found. -/
def pokeHandleCellPoke (sRows sCols : Int) :
    Nat → Board → Int → Int → DiagonalDirection → Except String (Board × Bool)
  | 0, _, _, _, _ => .error "fuel exhausted"
  | fuel + 1, board, row, col, dxn =>
    let reqNum := cellsAt board row col
    let oppoDxn := dxn.opposite
    let board := cornerEntriesSet board row col dxn CornerEntry.POKE
    let board :=
      if reqNum = some 2 then cornerEntriesSet board row col dxn CornerEntry.POKE
      else board
    pokeCornerStep sCols board row col dxn >>= fun r1 =>
    (if reqNum = some 1 then
      let blankBorders := getCornerBorderIndices sCols row col oppoDxn
      setBordersAccum BorderStatus.BLANK r1.1 [blankBorders.1, blankBorders.2] r1.2
    else if reqNum = some 2 then
      (let bdrs := getCornerBorderIndices sCols row col oppoDxn
       if bdrAt r1.1 bdrs.1 = BorderStatus.BLANK then
         setBorder r1.1 bdrs.2 BorderStatus.ACTIVE
       else if bdrAt r1.1 bdrs.2 = BorderStatus.BLANK then
         setBorder r1.1 bdrs.1 BorderStatus.ACTIVE
       else .ok (r1.1, false)) >>= fun ra =>
      pokeInitiatePoke sRows sCols fuel ra.1 row col oppoDxn >>= fun rb =>
      .ok (rb.1, r1.2 || ra.2 || rb.2)
    else if reqNum = some 3 then
      let bdrs := getCornerBorderIndices sCols row col oppoDxn
      setBordersAccum BorderStatus.ACTIVE r1.1 [bdrs.1, bdrs.2] r1.2 >>= fun ra =>
      let arms := getArms sRows sCols row col dxn
      let counts := getStatusCount ra.1 arms
      if counts.2.1 > 1 then
        .error "InvalidBoardException: poked 3-cell with more than one active arm"
      else if counts.2.1 = 1 ∧ counts.1 > 0 then
        setUnsetBordersAccum BorderStatus.BLANK ra.1 arms ra.2
      else
        .ok (ra.1, ra.2)
    else
      .ok (r1.1, r1.2)) >>= fun r2 =>
    if !r2.2 ∧ (row = 0 ∨ col = 0 ∨ row = board.rows - 1 ∨ col = board.cols - 1) then
      pokeBoundaryStep sCols r2.1 row col dxn
    else
      .ok (r2.1, r2.2)

end

/-- The type of the solver attribute self.cornerEntry of the Solver class
in src/src/puzzle/solver/solver.py (a rows-by-cols-by-4 matrix). -/
abbrev CEMatrix := List (List (List CornerEntry))

/-- Write a CEMatrix at (row, col, dxn). -/
def ceMatrixSet (ce : CEMatrix) (row col : Int) (d : DiagonalDirection)
    (v : CornerEntry) : CEMatrix :=
  let rowList := ce.getD row.toNat []
  let cellList := rowList.getD col.toNat []
  ce.set row.toNat (rowList.set col.toNat (cellList.set d.toIdx v))

mutual

/-- Solver.initiatePoke from src/src/puzzle/solver/solver.py
(lines 893-933). Unlike the initiatePoke of solver/sub/poke.py, this
method NEVER consults or updates board.pokes: it only writes the POKE tag
into the cornerEntry matrix of the Solver (skipped for clone boards) and
then propagates. The solver state self.cornerEntry is threaded explicitly
as ce. -/
def solverInitiatePoke (sRows sCols : Int) :
    Nat → CEMatrix → Board → Int → Int → DiagonalDirection →
    Except String (CEMatrix × Board × Bool)
  | 0, _, _, _, _, _ => .error "fuel exhausted"
  | fuel + 1, ce, board, origRow, origCol, dxn =>
    let ce :=
      if !board.isClone then ceMatrixSet ce origRow origCol dxn CornerEntry.POKE
      else ce
    let target := pokeTargetCell origRow origCol dxn
    if isValidCellIdx sRows sCols target.1 target.2 then
      solverHandleCellPoke sRows sCols fuel ce board target.1 target.2 dxn.opposite
    else
      let arms := getArms sRows sCols origRow origCol dxn
      if arms.length ≥ 2 then
        .error "AssertionError: outer cell with more than 1 arm"
      else
        activateFirstLoop board arms >>= fun r =>
        .ok (ce, r.1, r.2)

/-- Solver.handleCellPoke from src/src/puzzle/solver/solver.py
(lines 935-1046): mark the poked corner in the solver cornerEntry matrix
(not on clone boards), run the ACTIVE-only corner step and return
immediately on a move, then the requirement-specific blocks, then the
general lone-border block, then the other-arms parity block. -/
def solverHandleCellPoke (sRows sCols : Int) :
    Nat → CEMatrix → Board → Int → Int → DiagonalDirection →
    Except String (CEMatrix × Board × Bool)
  | 0, _, _, _, _, _ => .error "fuel exhausted"
  | fuel + 1, ce, board, row, col, dxn =>
    let reqNum := cellsAt board row col
    let ce :=
      if !board.isClone then
        let ce2 := ceMatrixSet ce row col dxn CornerEntry.POKE
        if reqNum = some 2 then ceMatrixSet ce2 row col dxn CornerEntry.POKE else ce2
      else ce
    let bdrs := getCornerBorderIndices sCols row col dxn
    (if bdrAt board bdrs.1 = BorderStatus.ACTIVE then
      setBorder board bdrs.2 BorderStatus.BLANK
    else if bdrAt board bdrs.2 = BorderStatus.ACTIVE then
      setBorder board bdrs.1 BorderStatus.BLANK
    else .ok (board, false)) >>= fun r1 =>
    if r1.2 then
      .ok (ce, r1.1, true)
    else
      (if reqNum = some 1 then
        let blankBorders := getCornerBorderIndices sCols row col dxn.opposite
        setBordersAccum BorderStatus.BLANK r1.1
          [blankBorders.1, blankBorders.2] r1.2 >>= fun r =>
        .ok (ce, r.1, r.2)
      else if reqNum = some 2 then
        (let obdrs := getCornerBorderIndices sCols row col dxn.opposite
         if bdrAt r1.1 obdrs.1 = BorderStatus.BLANK then
           setBorder r1.1 obdrs.2 BorderStatus.ACTIVE
         else if bdrAt r1.1 obdrs.2 = BorderStatus.BLANK then
           setBorder r1.1 obdrs.1 BorderStatus.ACTIVE
         else .ok (r1.1, false)) >>= fun ra =>
        solverInitiatePoke sRows sCols fuel ce ra.1 row col dxn.opposite >>= fun rb =>
        .ok (rb.1, rb.2.1, r1.2 || ra.2 || rb.2.2)
      else if reqNum = some 3 then
        let obdrs := getCornerBorderIndices sCols row col dxn.opposite
        setBordersAccum BorderStatus.ACTIVE r1.1 [obdrs.1, obdrs.2] r1.2 >>= fun ra =>
        let arms := getArms sRows sCols row col dxn
        let counts := getStatusCount ra.1 arms
        if counts.2.1 > 1 then
          .error "InvalidBoardException: poked 3-cell with more than one active arm"
        else if counts.2.1 = 1 ∧ counts.1 > 0 then
          setUnsetBordersAccum BorderStatus.BLANK ra.1 arms ra.2 >>= fun rc =>
          .ok (ce, rc.1, rc.2)
        else
          .ok (ce, ra.1, ra.2)
      else
        .ok (ce, r1.1, r1.2)) >>= fun r2 =>
      (if !r2.2.2 then
        let cbdrs := getCornerBorderIndices sCols row col dxn
        (if bdrAt r2.2.1 cbdrs.1 = BorderStatus.BLANK then
          setBorder r2.2.1 cbdrs.2 BorderStatus.ACTIVE
        else if bdrAt r2.2.1 cbdrs.2 = BorderStatus.BLANK then
          setBorder r2.2.1 cbdrs.1 BorderStatus.ACTIVE
        else .ok (r2.2.1, false)) >>= fun r =>
        .ok (r2.1, r.1, r2.2.2 || r.2)
      else
        .ok r2) >>= fun r3 =>
      if !r3.2.2 then
        let otherArms :=
          ((diagonalDirections.filter (fun d => d ≠ dxn)).map
            (fun d => getArms sRows sCols row col d)).flatten
        let counts := getStatusCount r3.2.1 otherArms
        if counts.1 = 1 then
          let newStatus :=
            if counts.2.1 % 2 = 0 then BorderStatus.ACTIVE else BorderStatus.BLANK
          setUnsetBordersAccum newStatus r3.2.1 otherArms r3.2.2 >>= fun r =>
          .ok (r3.1, r.1, r.2)
        else
          .ok r3
      else
        .ok r3

end

/-- The indices of all ACTIVE borders of a board, in index order. -/
def activeBorderIdxList (b : Board) : List Int :=
  ((List.range b.borders.length).filter
    (fun i => b.borders.getD i BorderStatus.UNSET == BorderStatus.ACTIVE)).map
    (fun i => (i : Int))

/-- Modelled from the spec: the flood fill over ACTIVE borders named by the
claim for C2 (spec section DONE state): starting from a seed border,
repeatedly visit ACTIVE borders connected through getConnectedBorders,
returning the visited set. The fuel always suffices when it is at least
the queue work bound used in singleLoopCheck. -/
def floodActive (sRows sCols : Int) (b : Board) :
    Nat → List Int → List Int → List Int
  | 0, visited, _ => visited
  | _ + 1, visited, [] => visited
  | fuel + 1, visited, i :: queue =>
    if i ∈ visited then floodActive sRows sCols b fuel visited queue
    else
      floodActive sRows sCols b fuel (i :: visited)
        (queue ++ (getConnectedBordersList sRows sCols i).filter
          (fun j => bdrAt b j == BorderStatus.ACTIVE))

/-- Modelled from the spec: the single-loop connectivity condition of the
claim for C2 — a flood fill over ACTIVE borders from one of them reaches a
count equal to the total ACTIVE count (vacuously true with no ACTIVE
border). -/
def singleLoopCheck (sRows sCols : Int) (b : Board) : Bool :=
  let actives := activeBorderIdxList b
  actives.isEmpty ||
  actives.any (fun s =>
    ((floodActive sRows sCols b
        ((b.borders.length + 1) * (b.borders.length + 7)) [] [s]).length : Int)
      = (actives.length : Int))

/-- The requirement-count conditions of simpleValidation, as a proposition:
every constrained cell has at most reqNum ACTIVE borders and at least
reqNum ACTIVE plus UNSET borders. -/
def SimpleValidCellsSpec (sCols : Int) (b : Board) : Prop :=
  ∀ rc ∈ b.reqCells, ∀ req : Int,
    (cellInfoInit sCols b rc.1 rc.2).reqNum = some req →
    (cellInfoInit sCols b rc.1 rc.2).bdrActiveCount ≤ req ∧
    req ≤ (cellInfoInit sCols b rc.1 rc.2).bdrActiveCount +
          (cellInfoInit sCols b rc.1 rc.2).bdrUnsetCount

/-- The per-ACTIVE-border conditions of simpleValidation, as a proposition:
at each endpoint of an ACTIVE border, the neighbouring borders are not all
BLANK and at most one of them is ACTIVE. -/
def SimpleValidBordersSpec (sRows sCols : Int) (b : Board) : Prop :=
  ∀ i : Nat, i < b.borders.length →
    b.borders.getD i BorderStatus.UNSET = BorderStatus.ACTIVE →
    (getStatusCount b (getConnectedBorders sRows sCols (i : Int)).1).2.2 ≠
      (((getConnectedBorders sRows sCols (i : Int)).1.length : Int)) ∧
    (getStatusCount b (getConnectedBorders sRows sCols (i : Int)).2).2.2 ≠
      (((getConnectedBorders sRows sCols (i : Int)).2.length : Int)) ∧
    (getStatusCount b (getConnectedBorders sRows sCols (i : Int)).1).2.1 ≤ 1 ∧
    (getStatusCount b (getConnectedBorders sRows sCols (i : Int)).2).2.1 ≤ 1

/-- The full right-hand side of claim C2: the counting conditions, the
endpoint conditions, and — once zero UNSET borders remain — the
single-connected-cycle condition via flood-fill count equality. -/
def C2ClaimSpec (sRows sCols : Int) (b : Board) : Prop :=
  SimpleValidCellsSpec sCols b ∧ SimpleValidBordersSpec sRows sCols b ∧
  (b.isComplete = true → singleLoopCheck sRows sCols b = true)

/-- Modelled from the spec: the two lattice endpoints of a border, read off
the row-major layout of the border list (each row block holds the cols top
borders of the row followed by its cols + 1 vertical borders, and the final
block holds the cols bottom borders): a horizontal border at row r and
column q joins vertices (r, q) and (r, q + 1); a vertical border at row r
and column p joins vertices (r, p) and (r + 1, p). -/
def borderEndpoints (cols borderIdx : Int) : (Int × Int) × (Int × Int) :=
  let r := borderIdx / ((cols * 2) + 1)
  let rem := borderIdx % ((cols * 2) + 1)
  if rem < cols then ((r, rem), (r, rem + 1))
  else ((r, rem - cols), (r + 1, rem - cols))

/-- Modelled from the spec: a vertex v is an endpoint of a border. -/
def isEndpointOf (cols : Int) (v : Int × Int) (borderIdx : Int) : Prop :=
  v = (borderEndpoints cols borderIdx).1 ∨ v = (borderEndpoints cols borderIdx).2

instance (cols : Int) (v : Int × Int) (borderIdx : Int) :
    Decidable (isEndpointOf cols v borderIdx) := by
  unfold isEndpointOf
  infer_instance

/-- Modelled from the spec: the character read back from a cell
requirement, a digit for a constrained cell and a dot otherwise. -/
def cellToChar : Option Int → Char
  | none => '.'
  | some n => Char.ofNat ('0'.toNat + n.toNat)

/-- Modelled from the spec: reading back every cell requirement of a board
in row-major order (the round-trip read of claim C9). -/
def readCellString (b : Board) : List Char :=
  (b.cells.map (fun rowArr => rowArr.map cellToChar)).flatten

/-- The board produced by Board.fromString, with an unreachable default
for the error case (used only to name concrete boards whose construction
provably succeeds). -/
def boardOfFromString (rows cols : Int) (s : List Char) : Board :=
  match Board.fromString rows cols s with
  | .ok b => b
  | .error _ => default

/-- Concrete 1-by-1 unconstrained board whose cell group at (0, 0) has been
derived as group 1 (the state Board.toggleCellGroup or
Solver.updateCellGroups produces on the Python board); used to test
Board.clone. -/
def cexBoardC1 : Board :=
  { boardOfFromString 1 1 ['.'] with cellGroups := [[some 1]] }

/-- Concrete 1-by-3 unconstrained board whose borders form two disjoint
unit loops (around cell (0,0) and around cell (0,2)), every other border
BLANK; the border order is the three top borders 0-2, the four vertical
borders 3-6, then the three bottom borders 7-9. This state is reachable
through the UI border toggles that solveCurrentBoard accepts. -/
def cexBoardC2 : Board :=
  { boardOfFromString 1 3 ['.', '.', '.'] with
    borders := [BorderStatus.ACTIVE, BorderStatus.BLANK, BorderStatus.ACTIVE,
                BorderStatus.ACTIVE, BorderStatus.ACTIVE, BorderStatus.ACTIVE,
                BorderStatus.ACTIVE, BorderStatus.ACTIVE, BorderStatus.BLANK,
                BorderStatus.ACTIVE] }

/-- Concrete 2-by-2 unconstrained board in its initial state, used to
exercise Solver.initiatePoke. -/
def cexBoardC6 : Board := boardOfFromString 2 2 ['.', '.', '.', '.']

/-- The poke set of the board inside a Solver poke result, or none when
the call raised. -/
def solverResultPokes (r : Except String (CEMatrix × Board × Bool)) :
    Option (List (Int × Int × DiagonalDirection)) :=
  match r with
  | .ok x => some x.2.1.pokes
  | .error _ => none

/-- The cellGroups of the board inside a clone result, or none when the
construction raised. -/
def cloneResultCellGroups (r : Except String Board) :
    Option (List (List (Option Int))) :=
  match r with
  | .ok b => some b.cellGroups
  | .error _ => none

/-- Well-formedness of a Board value: the shape invariants Board.__init__
establishes and every Python Board reachable from it maintains. -/
def WFBoard (b : Board) : Prop :=
  0 < b.rows ∧ 0 < b.cols ∧
  (b.cells.length : Int) = b.rows ∧
  (∀ rowArr ∈ b.cells, (rowArr.length : Int) = b.cols) ∧
  (b.borders.length : Int) = numBorders b.rows b.cols ∧
  (b.cornerEntries.length : Int) = b.rows ∧
  (∀ rowArr ∈ b.cornerEntries, (rowArr.length : Int) = b.cols ∧
    ∀ cellArr ∈ rowArr, cellArr.length = 4) ∧
  b.reqCells = computeReqCells b.rows b.cols b.cells

theorem bdrAt_bordersSet_self (b : Board) (i : Int) (s : BorderStatus)
    (h0 : 0 ≤ i) (hlt : i.toNat < b.borders.length) :
    bdrAt (bordersSet b i s) i = s := by
  simp [bdrAt, bordersSet, h0, List.getD_eq_getElem?_getD,
    List.getElem?_set_eq_of_lt, hlt]

theorem bdrAt_bordersSet_ne (b : Board) (i j : Int) (s : BorderStatus)
    (hi : 0 ≤ i) (hne : j ≠ i) :
    bdrAt (bordersSet b i s) j = bdrAt b j := by
  unfold bdrAt bordersSet
  by_cases hj : 0 ≤ j
  · have : j.toNat ≠ i.toNat := by omega
    simp [hj, List.getD_eq_getElem?_getD, List.getElem?_set_ne this.symm]
  · simp [hj]

theorem bordersSet_length (b : Board) (i : Int) (s : BorderStatus) :
    (bordersSet b i s).borders.length = b.borders.length := by
  simp [bordersSet]

theorem bordersSet_fields (b : Board) (i : Int) (s : BorderStatus) :
    (bordersSet b i s).rows = b.rows ∧ (bordersSet b i s).cols = b.cols ∧
    (bordersSet b i s).cells = b.cells ∧ (bordersSet b i s).pokes = b.pokes ∧
    (bordersSet b i s).cellGroups = b.cellGroups ∧
    (bordersSet b i s).reqCells = b.reqCells ∧
    (bordersSet b i s).isClone = b.isClone := by
  simp [bordersSet]

/-- Helper: bind equation for the Except monad. -/
theorem except_bind_ok {α β : Type} (x : Except String α) (f : α → Except String β)
    (r : β) : (x >>= f) = .ok r ↔ ∃ a, x = .ok a ∧ f a = .ok r := by
  cases x with
  | ok a => simp [Bind.bind, Except.bind]
  | error e => simp [Bind.bind, Except.bind]

/-- Helper: a successful setBorder call either wrote an UNSET border or
left the board untouched. -/
theorem setBorder_ok_cases (b : Board) (i : Int) (s : BorderStatus) (b' : Board)
    (f : Bool) (h : setBorder b i s = .ok (b', f)) :
    (bdrAt b i = BorderStatus.UNSET ∧ b' = bordersSet b i s ∧ f = true) ∨
    (bdrAt b i = s ∧ b' = b ∧ f = false) := by
  unfold setBorder at h
  split at h
  · rename_i hu
    rw [Except.ok.injEq, Prod.mk.injEq] at h
    exact Or.inl ⟨hu, h.1.symm, h.2.symm⟩
  · split at h
    · simp at h
    · rename_i hu hne
      rw [Except.ok.injEq, Prod.mk.injEq] at h
      exact Or.inr ⟨not_not.mp hne, h.1.symm, h.2.symm⟩

/-- C5: Solver.setBorder sets an UNSET border to the requested determined
status and returns True; returns False leaving the board unchanged when
the border already has that status; raises InvalidBoardException when the
border is already determined differently; and consequently a successful
call never changes any border already determined (ACTIVE or BLANK). -/
theorem c5_setBorder_trichotomy (b : Board) (idx : Int) (s : BorderStatus)
    (hs : s = BorderStatus.ACTIVE ∨ s = BorderStatus.BLANK)
    (h0 : 0 ≤ idx) (hlt : idx.toNat < b.borders.length) :
    (bdrAt b idx = BorderStatus.UNSET →
      setBorder b idx s = .ok (bordersSet b idx s, true) ∧
      bdrAt (bordersSet b idx s) idx = s ∧
      ∀ j : Int, j ≠ idx → bdrAt (bordersSet b idx s) j = bdrAt b j) ∧
    (bdrAt b idx = s → setBorder b idx s = .ok (b, false)) ∧
    (bdrAt b idx ≠ BorderStatus.UNSET → bdrAt b idx ≠ s →
      ∃ e, setBorder b idx s = .error e) ∧
    (∀ b' f, setBorder b idx s = .ok (b', f) →
      ∀ j : Int, bdrAt b j ≠ BorderStatus.UNSET → bdrAt b' j = bdrAt b j) := by
  refine ⟨?_, ?_, ?_, ?_⟩
  · intro hu
    refine ⟨by simp [setBorder, hu], bdrAt_bordersSet_self b idx s h0 hlt, ?_⟩
    intro j hj
    exact bdrAt_bordersSet_ne b idx j s h0 hj
  · intro hiss
    rcases hs with rfl | rfl <;> simp [setBorder, hiss]
  · intro hne hnes
    refine ⟨"InvalidBoardException", ?_⟩
    simp [setBorder, hne, hnes]
  · intro b' f h j hj
    rcases setBorder_ok_cases b idx s b' f h with ⟨hu, hb, _⟩ | ⟨_, hb, _⟩
    · subst hb
      by_cases hji : j = idx
      · subst hji
        exact absurd hu hj
      · exact bdrAt_bordersSet_ne b idx j s h0 hji
    · subst hb
      rfl

/-- C5 witness: the theorem applied to border 0 of the concrete 2-by-2
board, which is UNSET. -/
theorem c5_witness :
    setBorder cexBoardC6 0 BorderStatus.ACTIVE =
      .ok (bordersSet cexBoardC6 0 BorderStatus.ACTIVE, true) :=
  ((c5_setBorder_trichotomy cexBoardC6 0 BorderStatus.ACTIVE (Or.inl rfl)
    (by decide) (by decide)).1 (by decide)).1

/-- Helper: every list of four elements is an explicit four-element list. -/
theorem list_len_four {α : Type} (l : List α) (h : l.length = 4) :
    ∃ a b c d, l = [a, b, c, d] := by
  match l, h with
  | [a, b, c, d], _ => exact ⟨a, b, c, d, rfl⟩

/-- Helper: a digit character is at least the zero digit. -/
theorem digit_ge_zero_char (ch : Char) (h : ch.isDigit = true) :
    '0'.toNat ≤ ch.toNat := by
  simp [Char.isDigit] at h
  obtain ⟨h1, _⟩ := h
  simp [Char.le_def, Char.toNat] at h1 ⊢
  exact h1

/-- Helper: parsing a list of digit-or-dot characters succeeds, the
resulting row reads back to the original characters, and each entry is
the parse of the corresponding character. -/
theorem mapM_charToCell_ok (l : List Char)
    (h : ∀ ch ∈ l, ch = '.' ∨ ch.isDigit = true) :
    ∃ row, l.mapM charToCell = .ok row ∧ row.length = l.length ∧
      row.map cellToChar = l ∧
      ∀ j : Nat, j < l.length →
        charToCell (l.getD j '.') = .ok (row.getD j none) := by
  induction l with
  | nil =>
    refine ⟨[], rfl, rfl, rfl, ?_⟩
    intro j hj
    exact absurd hj (by simp)
  | cons ch rest ih =>
    obtain ⟨row, hrow, hlen, hread, hidx⟩ := ih (fun c hc => h c (List.mem_cons_of_mem _ hc))
    have hch := h ch (List.mem_cons_self _ _)
    have hcell : ∃ v, charToCell ch = .ok v ∧ cellToChar v = ch := by
      rcases hch with hdot | hdig
      · exact ⟨none, by simp [charToCell, hdot], by simp [cellToChar, hdot]⟩
      · refine ⟨some ((ch.toNat : Int) - ('0'.toNat : Int)), ?_, ?_⟩
        · have : ¬(ch = '.') := by
            intro hcontra
            rw [hcontra] at hdig
            simp [Char.isDigit] at hdig
          simp [charToCell, this, hdig]
        · have h48 : '0'.toNat ≤ ch.toNat := digit_ge_zero_char ch hdig
          simp only [cellToChar]
          have : ('0'.toNat + (((ch.toNat : Int) - ('0'.toNat : Int)).toNat)) = ch.toNat := by
            omega
          rw [this, Char.ofNat_toNat]
    obtain ⟨v, hv, hvc⟩ := hcell
    refine ⟨v :: row, ?_, by simp [hlen], by simp [hread, hvc], ?_⟩
    · rw [List.mapM_cons, hv, hrow]
      rfl
    · intro j hj
      cases j with
      | zero => simpa using hv
      | succ j' =>
        have hj' : j' < rest.length := by simpa using hj
        simpa using hidx j' hj'

/-- Helper: buildCells succeeds on a digit-or-dot string of the exact
length, the rows have the right shape, the cell matrix reads back to the
original string, and each cell is the parse of character r * cols + c. -/
theorem buildCells_ok (r c : Nat) (s : List Char) (hlen : s.length = r * c)
    (halpha : ∀ ch ∈ s, ch = '.' ∨ ch.isDigit = true) :
    ∃ cells, buildCells r c s = .ok cells ∧
      cells.length = r ∧ (∀ rowArr ∈ cells, rowArr.length = c) ∧
      (cells.map (fun rowArr => rowArr.map cellToChar)).flatten = s ∧
      ∀ i j : Nat, i < r → j < c →
        charToCell (s.getD (i * c + j) '.') = .ok ((cells.getD i []).getD j none) := by
  induction r generalizing s with
  | zero =>
    have : s = [] := List.eq_nil_of_length_eq_zero (by simpa using hlen)
    subst this
    refine ⟨[], rfl, rfl, ?_, by simp, ?_⟩
    · intro rowArr hmem
      exact absurd hmem (by simp)
    · intro i j hi hj
      exact absurd hi (by omega)
  | succ r' ih =>
    have htake : (s.take c).length = c := by
      rw [List.length_take]
      have : c ≤ s.length := by
        rw [hlen]
        calc c = 1 * c := (Nat.one_mul c).symm
        _ ≤ (r' + 1) * c := Nat.mul_le_mul_right c (by omega)
      omega
    obtain ⟨row, hrow, hrlen, hrread, hridx⟩ :=
      mapM_charToCell_ok (s.take c)
        (fun ch hch => halpha ch (List.mem_of_mem_take hch))
    have hdroplen : (s.drop c).length = r' * c := by
      rw [List.length_drop, hlen]
      have : (r' + 1) * c = r' * c + c := by ring
      omega
    obtain ⟨cells, hcells, hclen, hcshape, hcread, hcidx⟩ :=
      ih (s.drop c) hdroplen (fun ch hch => halpha ch (List.mem_of_mem_drop hch))
    refine ⟨row :: cells, ?_, by simp [hclen], ?_, ?_, ?_⟩
    · unfold buildCells
      rw [hrow, hcells]
      rfl
    · intro rowArr hmem
      rcases List.mem_cons.mp hmem with hmem | hmem
      · rw [hmem, hrlen, htake]
      · exact hcshape rowArr hmem
    · simp only [List.map_cons, List.flatten_cons, hrread, hcread]
      exact List.take_append_drop c s
    · intro i j hi hj
      cases i with
      | zero =>
        have hj1 : j < (s.take c).length := by rw [htake]; exact hj
        have hj2 : j < s.length := by
          rw [hlen]
          calc j < c := hj
          _ = 1 * c := (Nat.one_mul c).symm
          _ ≤ (r' + 1) * c := Nat.mul_le_mul_right c (by omega)
        have := hridx j hj1
        rw [List.getD_eq_getElem _ _ hj1, List.getElem_take] at this
        simp only [Nat.zero_mul, Nat.zero_add]
        rw [List.getD_eq_getElem s '.' hj2]
        simpa using this
      | succ i' =>
        have hi' : i' < r' := by omega
        have := hcidx i' j hi' hj
        have h1 : i' * c + j < (s.drop c).length := by
          rw [hdroplen]
          calc i' * c + j < i' * c + c := by omega
          _ = (i' + 1) * c := by ring
          _ ≤ r' * c := Nat.mul_le_mul_right c (by omega)
        have h2 : (i' + 1) * c + j < s.length := by
          rw [hlen]
          calc (i' + 1) * c + j < (i' + 1) * c + c := by omega
          _ = (i' + 2) * c := by ring
          _ ≤ (r' + 1) * c := Nat.mul_le_mul_right c (by omega)
        have hidxeq : (s.drop c).getD (i' * c + j) '.' = s.getD ((i' + 1) * c + j) '.' := by
          rw [List.getD_eq_getElem _ _ h1, List.getD_eq_getElem _ _ h2,
            List.getElem_drop]
          congr 1
          ring
        rw [hidxeq] at this
        simpa using this

/-- Helper: Board.__init__ succeeds on well-shaped cell data and returns
the expected record. -/
theorem boardInit_cells_ok (rows cols : Int) (cells : List (List (Option Int)))
    (bordersArg : Option (List BorderStatus))
    (hr : 0 < rows) (hc : 0 < cols)
    (h1 : (cells.length : Int) = rows)
    (h2 : ∀ rowArr ∈ cells, (rowArr.length : Int) = cols)
    (h3 : ∀ bs, bordersArg = some bs → (bs.length : Int) = numBorders rows cols) :
    boardInit rows cols (some cells) bordersArg = .ok {
      rows := rows, cols := cols, isClone := false, cells := cells,
      borders := bordersArg.getD (initialBorderList rows cols),
      cellGroups := noneMatrix rows cols, pokes := [],
      cornerEntries := unknownCornerEntryMatrix rows cols,
      knownCornerEntries := [],
      reqCells := computeReqCells rows cols cells } := by
  have hne : cells ≠ [] := by
    intro hcontra
    rw [hcontra] at h1
    simp at h1
    omega
  have hlen0 : 0 < cells.length := List.length_pos.mpr hne
  have hhead : ((cells.getD 0 []).length : Int) = cols := by
    rw [List.getD_eq_getElem _ _ hlen0]
    exact h2 _ (List.getElem_mem _)
  have hcond1 : ¬(rows ≤ 0 ∨ cols ≤ 0) := by omega
  have hcond2 : ¬((some cells).isSome ∧
      ((((some cells).getD []).length : Int) ≠ rows ∨
       ((((some cells).getD []).getD 0 []).length : Int) ≠ cols)) := by
    simp only [Option.isSome_some, Option.getD_some, true_and]
    push_neg
    exact ⟨h1, hhead⟩
  unfold boardInit
  rw [if_neg hcond1, if_neg hcond2, if_neg ?_]
  · cases bordersArg <;> rfl
  · intro hcontra
    obtain ⟨hsome, hbad⟩ := hcontra
    match bordersArg, hsome with
    | some bs, _ =>
      have := h3 bs rfl
      simp only [Option.getD_some] at hbad
      exact absurd this hbad

/-- Helper: Board.fromString succeeds on a digit-or-dot string of the
exact length, and the board reads back to the string. -/
theorem fromString_ok (rows cols : Int) (s : List Char)
    (hr : 0 < rows) (hc : 0 < cols)
    (halpha : ∀ ch ∈ s, ch = '.' ∨ ch.isDigit = true)
    (hlen : (s.length : Int) = rows * cols) :
    ∃ b, Board.fromString rows cols s = .ok b ∧
      b.rows = rows ∧ b.cols = cols ∧
      readCellString b = s ∧
      (∀ i j : Nat, i < rows.toNat → j < cols.toNat →
        charToCell (s.getD (i * cols.toNat + j) '.') = .ok (cellsAt b i j)) := by
  have hrows : rows = (rows.toNat : Int) := (Int.toNat_of_nonneg (le_of_lt hr)).symm
  have hcols : cols = (cols.toNat : Int) := (Int.toNat_of_nonneg (le_of_lt hc)).symm
  have hlenNat : s.length = rows.toNat * cols.toNat := by
    have : (s.length : Int) = ((rows.toNat * cols.toNat : Nat) : Int) := by
      rw [hlen]
      push_cast
      rw [← hrows, ← hcols]
    exact_mod_cast this
  obtain ⟨cells, hcells, hclen, hcshape, hcread, hcidx⟩ :=
    buildCells_ok rows.toNat cols.toNat s hlenNat halpha
  have hinit := boardInit_cells_ok rows cols cells none hr hc
    (by rw [hclen]; exact hrows.symm)
    (fun rowArr hmem => by rw [hcshape rowArr hmem]; exact hcols.symm)
    (by intro bs hcontra; cases hcontra)
  refine ⟨{ rows := rows, cols := cols, isClone := false, cells := cells,
            borders := initialBorderList rows cols,
            cellGroups := noneMatrix rows cols, pokes := [],
            cornerEntries := unknownCornerEntryMatrix rows cols,
            knownCornerEntries := [],
            reqCells := computeReqCells rows cols cells }, ?_, rfl, rfl, ?_, ?_⟩
  · unfold Board.fromString
    rw [if_neg (by omega), if_neg (by omega)]
    simp only [except_bind_ok]
    exact ⟨cells, hcells, hinit⟩
  · simpa [readCellString] using hcread
  · intro i j hi hj
    have := hcidx i j hi hj
    simpa [cellsAt] using this

/-- C9 counterexample: constructing a 1-by-1 board from the length-correct
string x raises (int of a non-digit is a ValueError), refuting the claim
that construction fails only when the length mismatches. -/
theorem c9_counterexample :
    (Board.fromString 1 1 ['x']).isOk = false ∧
    (((['x'] : List Char).length : Int) = 1 * 1) := by
  constructor
  · rfl
  · decide

/-- C9 amended: for positive dimensions and a string of digit-or-dot
characters, construction fails exactly when the length differs from
rows * cols; on an exact-length string it succeeds, every cell requirement
is the parse of the character at r * cols + c, and reading every cell
requirement back reproduces the string exactly. -/
theorem c9_fromString_roundtrip (rows cols : Int) (s : List Char)
    (hr : 0 < rows) (hc : 0 < cols)
    (halpha : ∀ ch ∈ s, ch = '.' ∨ ch.isDigit = true) :
    ((∃ e, Board.fromString rows cols s = .error e) ↔ (s.length : Int) ≠ rows * cols) ∧
    ((s.length : Int) = rows * cols →
      ∃ b, Board.fromString rows cols s = .ok b ∧
        readCellString b = s ∧
        ∀ i j : Nat, i < rows.toNat → j < cols.toNat →
          charToCell (s.getD (i * cols.toNat + j) '.') = .ok (cellsAt b i j)) := by
  by_cases hlen : (s.length : Int) = rows * cols
  · obtain ⟨b, hok, _, _, hread, hidx⟩ := fromString_ok rows cols s hr hc halpha hlen
    constructor
    · constructor
      · intro hcontra
        obtain ⟨e, he⟩ := hcontra
        rw [hok] at he
        cases he
      · intro hcontra
        exact absurd hlen hcontra
    · intro _
      exact ⟨b, hok, hread, hidx⟩
  · constructor
    · constructor
      · intro _
        exact hlen
      · intro _
        refine ⟨"ValueError: The given cell data does not match the board.", ?_⟩
        unfold Board.fromString
        rw [if_neg (by omega), if_pos hlen]
    · intro hcontra
      exact absurd hcontra hlen

/-- C9 witness: the round-trip theorem applied to the concrete 2-by-2
string 1.30. -/
theorem c9_witness :
    ∃ b, Board.fromString 2 2 ['1', '.', '3', '0'] = .ok b ∧
      readCellString b = ['1', '.', '3', '0'] ∧
      ∀ i j : Nat, i < (2 : Int).toNat → j < (2 : Int).toNat →
        charToCell ((['1', '.', '3', '0'] : List Char).getD (i * (2 : Int).toNat + j) '.') =
          .ok (cellsAt b i j) :=
  (c9_fromString_roundtrip 2 2 ['1', '.', '3', '0'] (by decide) (by decide)
    (by decide)).2 (by decide)

/-- Helper: the entrywise corner-entry copy reproduces a well-shaped
source matrix exactly. -/
theorem cloneCornerEntries_eq (rows cols : Int) (m : CEMatrix)
    (h1 : (m.length : Int) = rows)
    (h2 : ∀ rowArr ∈ m, (rowArr.length : Int) = cols ∧
      ∀ cellArr ∈ rowArr, cellArr.length = 4) :
    cloneCornerEntries rows cols m = m := by
  have hrn : m.length = rows.toNat := by omega
  apply List.ext_getElem
  · simp [cloneCornerEntries, hrn]
  · intro r hr1 hr2
    simp only [cloneCornerEntries, List.getElem_map, List.getElem_range]
    have hrlt : r < m.length := by
      simp [cloneCornerEntries, hrn] at hr1
      omega
    have hmem : m[r] ∈ m := List.getElem_mem _
    obtain ⟨hrowlen, hcells⟩ := h2 _ hmem
    have hgd : m.getD r [] = m[r] := List.getD_eq_getElem _ _ hrlt
    apply List.ext_getElem
    · simp only [List.length_map, List.length_range, hgd]
      omega
    · intro c hc1 hc2
      simp only [List.getElem_map, List.getElem_range, hgd]
      have hclt : c < m[r].length := hc2
      have hcmem : m[r][c] ∈ m[r] := List.getElem_mem _
      have hclen4 := hcells _ hcmem
      have hgdc : (m[r]).getD c [] = m[r][c] := List.getD_eq_getElem _ _ hclt
      rw [hgdc]
      obtain ⟨a, b', c', d, habcd⟩ := list_len_four _ hclen4
      rw [habcd]
      rfl

/-- C1 counterexample: on the concrete 1-by-1 board whose cell group at
(0, 0) has been derived as 1, clone produces a board whose cellGroups
matrix is all None, different from the cellGroups of the original:
clone does NOT copy the cell-group labels. -/
theorem c1_counterexample :
    cloneResultCellGroups cexBoardC1.clone = some [[none]] ∧
    cexBoardC1.cellGroups = [[some 1]] ∧
    cloneResultCellGroups cexBoardC1.clone ≠ some cexBoardC1.cellGroups := by
  refine ⟨by rfl, by rfl, by decide⟩

/-- C1 amended: for every well-formed board, clone succeeds and returns a
new Board with equal cell requirements, equal border statuses, equal
corner entries, equal poke set and equal reqCells, marked isClone = true —
but with the cellGroups matrix reset to all None (and the
knownCornerEntries set reset to empty) instead of copied. In this pure
embedding the clone is a distinct value, so mutating it cannot change the
original. -/
theorem c1_clone_copies (b : Board) (hwf : WFBoard b) :
    ∃ b', b.clone = .ok b' ∧
      b'.cells = b.cells ∧ b'.borders = b.borders ∧
      b'.cornerEntries = b.cornerEntries ∧ b'.pokes = b.pokes ∧
      b'.reqCells = b.reqCells ∧ b'.isClone = true ∧
      b'.cellGroups = noneMatrix b.rows b.cols ∧
      b'.knownCornerEntries = [] := by
  obtain ⟨hr, hc, hcl, hcshape, hblen, hcel, hceshape, hreq⟩ := hwf
  have hinit := boardInit_cells_ok b.rows b.cols b.cells (some b.borders) hr hc
    hcl hcshape (by intro bs hbs; cases hbs; exact hblen)
  refine ⟨{ rows := b.rows, cols := b.cols, isClone := true, cells := b.cells,
            borders := b.borders,
            cellGroups := noneMatrix b.rows b.cols, pokes := b.pokes,
            cornerEntries := cloneCornerEntries b.rows b.cols b.cornerEntries,
            knownCornerEntries := [],
            reqCells := computeReqCells b.rows b.cols b.cells },
         ?_, rfl, rfl, ?_, rfl, ?_, rfl, rfl, rfl⟩
  · unfold Board.clone
    simp only [except_bind_ok]
    exact ⟨_, hinit, rfl⟩
  · exact cloneCornerEntries_eq b.rows b.cols b.cornerEntries hcel hceshape
  · exact hreq.symm

/-- C1 witness: the amended theorem applied to the concrete board of the
counterexample, whose well-formedness is decidable. -/
theorem c1_witness :
    ∃ b', cexBoardC1.clone = .ok b' ∧
      b'.cells = cexBoardC1.cells ∧ b'.borders = cexBoardC1.borders ∧
      b'.cornerEntries = cexBoardC1.cornerEntries ∧ b'.pokes = cexBoardC1.pokes ∧
      b'.reqCells = cexBoardC1.reqCells ∧ b'.isClone = true ∧
      b'.cellGroups = noneMatrix cexBoardC1.rows cexBoardC1.cols ∧
      b'.knownCornerEntries = [] :=
  c1_clone_copies cexBoardC1 (by
    refine ⟨by decide, by decide, by decide, by decide, by decide, by decide,
      by decide, by decide⟩)

/-- Helper: for a valid cell of a rows-by-cols grid, the border index
computed by _getBorderIdx is within the border array bounds. -/
theorem getBorderIdx_range (rows cols row col : Int) (d : CardinalDirection)
    (hrow0 : 0 ≤ row) (hrow : row < rows) (hcol0 : 0 ≤ col) (hcol : col < cols) :
    0 ≤ getBorderIdx cols row col d ∧
    getBorderIdx cols row col d < numBorders rows cols := by
  have h1 : (cols * 2 + 1) * row ≤ (cols * 2 + 1) * (rows - 1) :=
    mul_le_mul_of_nonneg_left (by omega) (by omega)
  have h2 : 0 ≤ (cols * 2 + 1) * row := mul_nonneg (by omega) hrow0
  have h3 : (cols * 2 + 1) * (rows - 1) = (cols * 2 + 1) * rows - (cols * 2 + 1) := by
    ring
  rw [h3] at h1
  cases d <;> simp only [getBorderIdx, numBorders] <;> constructor <;> linarith

/-- C10: Board operations resolving (row, col, direction) to a border index
go through the process-wide static BoardTools dimensions, which default to
25 by 25; when the static dimensions equal the board dimensions the lookup
always succeeds (the computed index is inside the borders array), and for
a board whose dimensions differ from the static values the computed index
can fall outside the borders array (an IndexError, e.g. a 1-by-1 board
read through the static 25-column topology) or silently address the wrong
border (e.g. index 3 instead of 5 for the TOP border of cell (1, 0) when
the static column count is 1 but the board has 2 columns). -/
theorem c10_static_dimension_coupling :
    (boardToolsRowsDefault = 25 ∧ boardToolsColsDefault = 25) ∧
    (∀ (b : Board) (row col : Int) (d : CardinalDirection),
      (b.borders.length : Int) = numBorders b.rows b.cols →
      0 ≤ row → row < b.rows → 0 ≤ col → col < b.cols →
      (Board.getBorderStatus b.cols b row col d).isSome = true) ∧
    (Board.getBorderStatus boardToolsColsDefault (boardOfFromString 1 1 ['.'])
      0 0 .BOT = none) ∧
    (getBorderIdx 1 1 0 .TOP ≠ getBorderIdx 2 1 0 .TOP ∧
     isValidBorderIdx 2 2 (getBorderIdx 1 1 0 .TOP) = true) := by
  refine ⟨⟨rfl, rfl⟩, ?_, by rfl, by decide⟩
  intro b row col d hblen hrow0 hrow hcol0 hcol
  obtain ⟨hge, hlt⟩ := getBorderIdx_range b.rows b.cols row col d hrow0 hrow hcol0 hcol
  have hltNat : (getBorderIdx b.cols row col d).toNat < b.borders.length := by
    omega
  unfold Board.getBorderStatus
  simp only [hge, if_pos]
  rw [List.get?_eq_getElem?, List.getElem?_eq_getElem hltNat]
  rfl

/-- C10 witness: the in-range part applied to the concrete 2-by-2 board
with matching static dimensions. -/
theorem c10_witness :
    (Board.getBorderStatus (boardOfFromString 2 2 ['.', '.', '.', '.']).cols
      (boardOfFromString 2 2 ['.', '.', '.', '.']) 1 1 .BOT).isSome = true :=
  c10_static_dimension_coupling.2.1 (boardOfFromString 2 2 ['.', '.', '.', '.'])
    1 1 .BOT (by decide) (by decide) (by decide) (by decide) (by decide)

theorem cellInfo_reqNum (sCols : Int) (b : Board) (row col : Int) :
    (cellInfoInit sCols b row col).reqNum = cellsAt b row col := rfl

theorem cellInfo_unsetCount (sCols : Int) (b : Board) (row col : Int) :
    (cellInfoInit sCols b row col).bdrUnsetCount =
      ((cellInfoInit sCols b row col).unsetBorders.length : Int) := rfl

theorem cellInfo_mem_unsetBorders (sCols : Int) (b : Board) (row col : Int)
    (i : Int) :
    i ∈ (cellInfoInit sCols b row col).unsetBorders ↔
      i ∈ (cellInfoInit sCols b row col).bdrIndices ∧
      bdrAt b i = BorderStatus.UNSET := by
  simp [cellInfoInit, List.mem_filter]

/-- Helper: the fillOrRemove loop sets every listed border (each UNSET or
already at the target status, each in range) to the target status,
touches no other border, and reports a move exactly when the list is
nonempty. -/
theorem fillOrRemoveLoop_ok (st : BorderStatus) (hst : st ≠ BorderStatus.UNSET) :
    ∀ (l : List Int) (b : Board) (fm : Bool),
      (∀ i ∈ l, 0 ≤ i ∧ i.toNat < b.borders.length ∧
        (bdrAt b i = BorderStatus.UNSET ∨ bdrAt b i = st)) →
      ∃ b', fillOrRemoveLoop st b l fm = .ok (b', if l.isEmpty then fm else true) ∧
        (∀ i ∈ l, bdrAt b' i = st) ∧
        (∀ j : Int, j ∉ l → bdrAt b' j = bdrAt b j) ∧
        b'.borders.length = b.borders.length := by
  intro l
  induction l with
  | nil =>
    intro b fm _
    exact ⟨b, rfl, by simp, fun j _ => rfl, rfl⟩
  | cons i rest ih =>
    intro b fm hpre
    obtain ⟨hi0, hilen, histat⟩ := hpre i (List.mem_cons_self _ _)
    have hstep : ∃ b1, setBorder b i st = .ok (b1, bdrAt b i = BorderStatus.UNSET) ∧
        bdrAt b1 i = st ∧ (∀ j : Int, j ≠ i → bdrAt b1 j = bdrAt b j) ∧
        b1.borders.length = b.borders.length := by
      rcases histat with hu | hs
      · refine ⟨bordersSet b i st, by simp [setBorder, hu], ?_, ?_, ?_⟩
        · exact bdrAt_bordersSet_self b i st hi0 hilen
        · intro j hj
          exact bdrAt_bordersSet_ne b i j st hi0 hj
        · exact bordersSet_length b i st
      · have hne : bdrAt b i ≠ BorderStatus.UNSET := by rw [hs]; exact hs ▸ hst
        refine ⟨b, ?_, hs, fun j _ => rfl, rfl⟩
        simp [setBorder, hs, hne, hst]
    obtain ⟨b1, hset, hb1i, hb1other, hb1len⟩ := hstep
    have hpre1 : ∀ i' ∈ rest, 0 ≤ i' ∧ i'.toNat < b1.borders.length ∧
        (bdrAt b1 i' = BorderStatus.UNSET ∨ bdrAt b1 i' = st) := by
      intro i' hmem
      obtain ⟨h0, hlen, hstat⟩ := hpre i' (List.mem_cons_of_mem _ hmem)
      refine ⟨h0, by omega, ?_⟩
      by_cases hii : i' = i
      · subst hii
        exact Or.inr hb1i
      · rw [hb1other i' hii]
        exact hstat
    obtain ⟨b', hloop, hall, hother, hlen'⟩ := ih b1 true hpre1
    refine ⟨b', ?_, ?_, ?_, by omega⟩
    · show (do
        let r ← setBorder b i st
        fillOrRemoveLoop st r.1 rest true) = _
      rw [hset]
      show fillOrRemoveLoop st b1 rest true = _
      rw [hloop]
      simp
    · intro i'' hmem
      rcases List.mem_cons.mp hmem with hmem | hmem
      · subst hmem
        by_cases hmem2 : i'' ∈ rest
        · exact hall i'' hmem2
        · rw [hother i'' hmem2]
          exact hb1i
      · exact hall i'' hmem
    · intro j hj
      have hj1 : j ∉ rest := fun hc => hj (List.mem_cons_of_mem _ hc)
      have hj2 : j ≠ i := fun hc => hj (hc ▸ List.mem_cons_self _ _)
      rw [hother j hj1, hb1other j hj2]

theorem cellInfo_activeCount (sCols : Int) (b : Board) (row col : Int) :
    (cellInfoInit sCols b row col).bdrActiveCount =
      ((cellInfoInit sCols b row col).activeBorders.length : Int) := rfl

/-- Helper: evaluation of fillOrRemoveRemainingUnsetBorders in the
saturation cases. -/
theorem fillOrRemove_saturates (sCols : Int) (b : Board) (row col : Int) (k : Int)
    (hreq : cellsAt b row col = some k)
    (hrange : ∀ i ∈ (cellInfoInit sCols b row col).bdrIndices,
      0 ≤ i ∧ i.toNat < b.borders.length)
    (hU : (cellInfoInit sCols b row col).bdrUnsetCount > 0)
    (st : BorderStatus) (hst : st ≠ BorderStatus.UNSET)
    (hbranch :
      ((cellInfoInit sCols b row col).bdrUnsetCount +
        (cellInfoInit sCols b row col).bdrActiveCount = k ∧ st = BorderStatus.ACTIVE) ∨
      ((cellInfoInit sCols b row col).bdrUnsetCount +
        (cellInfoInit sCols b row col).bdrActiveCount ≠ k ∧
       (cellInfoInit sCols b row col).bdrActiveCount = k ∧ st = BorderStatus.BLANK)) :
    ∃ b', fillOrRemoveRemainingUnsetBorders b (cellInfoInit sCols b row col) =
        .ok (b', true) ∧
      (∀ i ∈ (cellInfoInit sCols b row col).bdrIndices,
        bdrAt b i = BorderStatus.UNSET → bdrAt b' i = st) ∧
      (∀ j : Int, j ∉ (cellInfoInit sCols b row col).unsetBorders →
        bdrAt b' j = bdrAt b j) := by
  have hpre : ∀ i ∈ (cellInfoInit sCols b row col).unsetBorders,
      0 ≤ i ∧ i.toNat < b.borders.length ∧
      (bdrAt b i = BorderStatus.UNSET ∨ bdrAt b i = st) := by
    intro i hmem
    obtain ⟨hidx, hstat⟩ := (cellInfo_mem_unsetBorders sCols b row col i).mp hmem
    obtain ⟨h0, hlen⟩ := hrange i hidx
    exact ⟨h0, hlen, Or.inl hstat⟩
  obtain ⟨b', hloop, hall, hother, _⟩ :=
    fillOrRemoveLoop_ok st hst (cellInfoInit sCols b row col).unsetBorders b false hpre
  have hnonempty : (cellInfoInit sCols b row col).unsetBorders.isEmpty = false := by
    rw [cellInfo_unsetCount] at hU
    cases hcase : (cellInfoInit sCols b row col).unsetBorders with
    | nil => rw [hcase] at hU; simp at hU
    | cons x xs => rfl
  rw [hnonempty] at hloop
  simp only [Bool.false_eq_true, if_false] at hloop
  refine ⟨b', ?_, ?_, hother⟩
  · unfold fillOrRemoveRemainingUnsetBorders
    rw [cellInfo_reqNum, hreq]
    simp only
    rw [if_pos hU]
    rcases hbranch with ⟨hsum, hstv⟩ | ⟨hsum, hact, hstv⟩
    · rw [if_pos hsum]
      rw [← hstv]
      exact hloop
    · rw [if_neg hsum, if_pos hact, ← hstv]
      exact hloop
  · intro i hidx hstat
    exact hall i ((cellInfo_mem_unsetBorders sCols b row col i).mpr ⟨hidx, hstat⟩)

/-- C4: for a cell with requirement k (0 to 3): when the ACTIVE border
count already equals k and UNSET borders remain, one processCell pass sets
every remaining UNSET border of the cell to BLANK (and changes nothing
else); when ACTIVE plus UNSET equals k and UNSET borders remain, the pass
sets every remaining UNSET border to ACTIVE; and when ACTIVE exceeds k or
ACTIVE plus UNSET falls below k, processing the cell raises
InvalidBoardException — all regardless of what the rules after the
saturation block (the rest parameter) would do. -/
theorem c4_processCell_saturation (sCols : Int) (b : Board) (row col : Int)
    (k : Int) (hreq : cellsAt b row col = some k) (hk : k ≤ 3)
    (hrange : ∀ i ∈ (cellInfoInit sCols b row col).bdrIndices,
      0 ≤ i ∧ i.toNat < b.borders.length) :
    ((cellInfoInit sCols b row col).bdrActiveCount = k →
     (cellInfoInit sCols b row col).bdrUnsetCount > 0 →
      ∀ rest : Board → CellInfo → Except String (Board × Bool),
        ∃ b', processCellWith rest sCols b row col = .ok (b', true) ∧
          (∀ i ∈ (cellInfoInit sCols b row col).bdrIndices,
            bdrAt b i = BorderStatus.UNSET → bdrAt b' i = BorderStatus.BLANK) ∧
          (∀ j : Int, j ∉ (cellInfoInit sCols b row col).unsetBorders →
            bdrAt b' j = bdrAt b j)) ∧
    ((cellInfoInit sCols b row col).bdrActiveCount +
       (cellInfoInit sCols b row col).bdrUnsetCount = k →
     (cellInfoInit sCols b row col).bdrUnsetCount > 0 →
      ∀ rest : Board → CellInfo → Except String (Board × Bool),
        ∃ b', processCellWith rest sCols b row col = .ok (b', true) ∧
          (∀ i ∈ (cellInfoInit sCols b row col).bdrIndices,
            bdrAt b i = BorderStatus.UNSET → bdrAt b' i = BorderStatus.ACTIVE) ∧
          (∀ j : Int, j ∉ (cellInfoInit sCols b row col).unsetBorders →
            bdrAt b' j = bdrAt b j)) ∧
    (((cellInfoInit sCols b row col).bdrActiveCount > k ∨
      (cellInfoInit sCols b row col).bdrActiveCount +
        (cellInfoInit sCols b row col).bdrUnsetCount < k) →
      ∀ rest : Board → CellInfo → Except String (Board × Bool),
        ∃ e, processCellWith rest sCols b row col = .error e) := by
  have hU0 : 0 ≤ (cellInfoInit sCols b row col).bdrUnsetCount := by
    rw [cellInfo_unsetCount]
    exact Int.natCast_nonneg _
  have hA0 : 0 ≤ (cellInfoInit sCols b row col).bdrActiveCount := by
    rw [cellInfo_activeCount]
    exact Int.natCast_nonneg _
  refine ⟨?_, ?_, ?_⟩
  · intro hA hU rest
    obtain ⟨b', hfill, hall, hother⟩ :=
      fillOrRemove_saturates sCols b row col k hreq hrange hU BorderStatus.BLANK
        (by simp) (Or.inr ⟨by omega, hA, rfl⟩)
    refine ⟨b', ?_, hall, hother⟩
    unfold processCellWith
    rw [hreq]
    simp only
    rw [if_neg (by omega), if_neg (by omega), if_neg (by omega)]
    rw [hfill]
    rfl
  · intro hS hU rest
    obtain ⟨b', hfill, hall, hother⟩ :=
      fillOrRemove_saturates sCols b row col k hreq hrange hU BorderStatus.ACTIVE
        (by simp) (Or.inl ⟨by omega, rfl⟩)
    refine ⟨b', ?_, hall, hother⟩
    unfold processCellWith
    rw [hreq]
    simp only
    rw [if_neg (by omega), if_neg (by omega), if_neg (by omega)]
    rw [hfill]
    rfl
  · intro hbad rest
    unfold processCellWith
    rw [hreq]
    simp only
    by_cases h4 : (cellInfoInit sCols b row col).bdrActiveCount = 4
    · rw [if_pos h4]
      exact ⟨_, rfl⟩
    · rw [if_neg h4]
      by_cases hgt : (cellInfoInit sCols b row col).bdrActiveCount > k
      · rw [if_pos hgt]
        exact ⟨_, rfl⟩
      · have hlt : (cellInfoInit sCols b row col).bdrUnsetCount +
            (cellInfoInit sCols b row col).bdrActiveCount < k := by omega
        rw [if_neg hgt, if_pos hlt]
        exact ⟨_, rfl⟩

/-- C4 witness: the saturation theorem applied to a concrete 1-cell with
one ACTIVE border: the three remaining UNSET borders become BLANK. -/
theorem c4_witness :
    ∃ b', processCellWith (fun bb _ => .ok (bb, false)) 1
        { boardOfFromString 1 1 ['1'] with
          borders := [BorderStatus.ACTIVE, BorderStatus.UNSET,
                      BorderStatus.UNSET, BorderStatus.UNSET] } 0 0 = .ok (b', true) ∧
      (∀ i ∈ (cellInfoInit 1
          { boardOfFromString 1 1 ['1'] with
            borders := [BorderStatus.ACTIVE, BorderStatus.UNSET,
                        BorderStatus.UNSET, BorderStatus.UNSET] } 0 0).bdrIndices,
        bdrAt { boardOfFromString 1 1 ['1'] with
          borders := [BorderStatus.ACTIVE, BorderStatus.UNSET,
                      BorderStatus.UNSET, BorderStatus.UNSET] } i = BorderStatus.UNSET →
        bdrAt b' i = BorderStatus.BLANK) ∧
      (∀ j : Int, j ∉ (cellInfoInit 1
          { boardOfFromString 1 1 ['1'] with
            borders := [BorderStatus.ACTIVE, BorderStatus.UNSET,
                        BorderStatus.UNSET, BorderStatus.UNSET] } 0 0).unsetBorders →
        bdrAt b' j = bdrAt { boardOfFromString 1 1 ['1'] with
          borders := [BorderStatus.ACTIVE, BorderStatus.UNSET,
                      BorderStatus.UNSET, BorderStatus.UNSET] } j) :=
  (c4_processCell_saturation 1
    { boardOfFromString 1 1 ['1'] with
      borders := [BorderStatus.ACTIVE, BorderStatus.UNSET,
                  BorderStatus.UNSET, BorderStatus.UNSET] } 0 0 1
    (by decide) (by decide) (by decide)).1 (by decide) (by decide)
    (fun bb _ => .ok (bb, false))

/-- C2 counterexample: the concrete complete 1-by-3 board whose ACTIVE
borders form TWO disjoint loops passes simpleValidation, yet the right
hand side of the claim fails because no UNSET border remains and the
flood-fill count from any ACTIVE border (4) differs from the total ACTIVE
count (8): simpleValidation performs no single-loop connectivity check. -/
theorem c2_counterexample :
    simpleValidation 1 3 cexBoardC2 = true ∧ ¬ C2ClaimSpec 1 3 cexBoardC2 := by
  constructor
  · decide
  · intro hspec
    obtain ⟨-, -, hconn⟩ := hspec
    have h2 := hconn (by decide)
    exact absurd h2 (by decide)

/-- C2 amended: simpleValidation returns True exactly when every
constrained cell satisfies both requirement-count bounds and every ACTIVE
border has, at each endpoint, at least one non-BLANK neighbouring border
and at most one ACTIVE neighbouring border; the function performs no
single-loop connectivity check, not even when zero UNSET borders remain. -/
theorem c2_simpleValidation_iff (sRows sCols : Int) (b : Board) :
    simpleValidation sRows sCols b = true ↔
      (SimpleValidCellsSpec sCols b ∧ SimpleValidBordersSpec sRows sCols b) := by
  unfold simpleValidation simpleValidationCells simpleValidationBorders
  rw [Bool.and_eq_true, List.all_eq_true, List.all_eq_true]
  constructor
  · rintro ⟨h1, h2⟩
    constructor
    · intro rc hmem req hreq
      have hc := h1 rc hmem
      simp only at hc
      rw [hreq] at hc
      simp only [Bool.and_eq_true, Bool.not_eq_true', decide_eq_false_iff_not,
        not_lt] at hc
      omega
    · intro i hi hact
      have hc := h2 i (List.mem_range.mpr hi)
      simp only at hc
      simp only [hact, beq_self_eq_true, if_true, Bool.and_eq_true,
        Bool.not_eq_true', decide_eq_false_iff_not, not_lt] at hc
      exact ⟨hc.1.1.1, hc.1.1.2, hc.1.2, hc.2⟩
  · rintro ⟨h1, h2⟩
    constructor
    · intro rc hmem
      simp only
      cases hreq : (cellInfoInit sCols b rc.1 rc.2).reqNum with
      | none => rfl
      | some req =>
        have := h1 rc hmem req hreq
        simp only [Bool.and_eq_true, Bool.not_eq_true', decide_eq_false_iff_not,
          not_lt]
        omega
    · intro i hmem
      simp only
      by_cases hact : b.borders.getD i BorderStatus.UNSET = BorderStatus.ACTIVE
      · have := h2 i (List.mem_range.mp hmem) hact
        simp only [hact, beq_self_eq_true, if_true, Bool.and_eq_true,
          Bool.not_eq_true', decide_eq_false_iff_not, not_lt]
        exact ⟨⟨⟨this.1, this.2.1⟩, this.2.2.1⟩, this.2.2.2⟩
      · have hbf : (b.borders.getD i BorderStatus.UNSET == BorderStatus.ACTIVE) = false := by
          simp only [beq_eq_false_iff_ne, ne_eq]
          exact hact
        simp only [hbf, Bool.false_eq_true, if_false]

theorem c2_witness :
    simpleValidation 1 3 cexBoardC2 = true ↔
      (SimpleValidCellsSpec 3 cexBoardC2 ∧ SimpleValidBordersSpec 1 3 cexBoardC2) :=
  c2_simpleValidation_iff 1 3 cexBoardC2

theorem cornerEntriesSet_pokes (b : Board) (row col : Int) (d : DiagonalDirection)
    (v : CornerEntry) : (cornerEntriesSet b row col d v).pokes = b.pokes := rfl

theorem cornerEntriesSet_fields (b : Board) (row col : Int) (d : DiagonalDirection)
    (v : CornerEntry) :
    (cornerEntriesSet b row col d v).rows = b.rows ∧
    (cornerEntriesSet b row col d v).cols = b.cols ∧
    (cornerEntriesSet b row col d v).cells = b.cells ∧
    (cornerEntriesSet b row col d v).borders = b.borders ∧
    (cornerEntriesSet b row col d v).isClone = b.isClone := by
  refine ⟨rfl, rfl, rfl, rfl, rfl⟩

theorem setBorder_pokes_pair (b : Board) (i : Int) (s : BorderStatus)
    (r : Board × Bool) (h : setBorder b i s = .ok r) : r.1.pokes = b.pokes := by
  rcases setBorder_ok_cases b i s r.1 r.2 h with ⟨_, hb, _⟩ | ⟨_, hb, _⟩
  · rw [hb]
    rfl
  · rw [hb]

theorem setBordersAccum_pokes (st : BorderStatus) :
    ∀ (l : List Int) (b : Board) (fm : Bool) (r : Board × Bool),
      setBordersAccum st b l fm = .ok r → r.1.pokes = b.pokes := by
  intro l
  induction l with
  | nil =>
    intro b fm r h
    injection h with h
    rw [← h]
  | cons i rest ih =>
    intro b fm r h
    unfold setBordersAccum at h
    obtain ⟨r1, hr1, h2⟩ := (except_bind_ok _ _ _).mp h
    rw [ih r1.1 _ r h2, setBorder_pokes_pair b i st r1 hr1]

theorem setUnsetBordersAccum_pokes (st : BorderStatus) :
    ∀ (l : List Int) (b : Board) (fm : Bool) (r : Board × Bool),
      setUnsetBordersAccum st b l fm = .ok r → r.1.pokes = b.pokes := by
  intro l
  induction l with
  | nil =>
    intro b fm r h
    injection h with h
    rw [← h]
  | cons i rest ih =>
    intro b fm r h
    unfold setUnsetBordersAccum at h
    split at h
    · obtain ⟨r1, hr1, h2⟩ := (except_bind_ok _ _ _).mp h
      rw [ih r1.1 _ r h2, setBorder_pokes_pair b i st r1 hr1]
    · exact ih b _ r h

theorem activateFirstLoop_pokes :
    ∀ (l : List Int) (b : Board) (r : Board × Bool),
      activateFirstLoop b l = .ok r → r.1.pokes = b.pokes := by
  intro l
  induction l with
  | nil =>
    intro b r h
    injection h with h
    rw [← h]
  | cons i rest ih =>
    intro b r h
    unfold activateFirstLoop at h
    obtain ⟨r1, hr1, h2⟩ := (except_bind_ok _ _ _).mp h
    have hp := setBorder_pokes_pair b i BorderStatus.ACTIVE r1 hr1
    split at h2
    · injection h2 with h2
      rw [← h2]
      exact hp
    · rw [ih r1.1 r h2, hp]

theorem pokeCornerStep_pokes (sCols : Int) (b : Board) (row col : Int)
    (dxn : DiagonalDirection) (r : Board × Bool)
    (h : pokeCornerStep sCols b row col dxn = .ok r) : r.1.pokes = b.pokes := by
  simp only [pokeCornerStep] at h
  split at h
  · exact setBorder_pokes_pair _ _ _ _ h
  · split at h
    · exact setBorder_pokes_pair _ _ _ _ h
    · split at h
      · exact setBorder_pokes_pair _ _ _ _ h
      · split at h
        · exact setBorder_pokes_pair _ _ _ _ h
        · injection h with h
          rw [← h]

theorem pokeBoundaryRowStep_pokes (sCols : Int) (b : Board) (row col : Int)
    (dxn : DiagonalDirection) (r : Board × Bool)
    (h : pokeBoundaryRowStep sCols b row col dxn = .ok r) : r.1.pokes = b.pokes := by
  simp only [pokeBoundaryRowStep] at h
  split at h
  · split at h
    · exact setBorder_pokes_pair _ _ _ _ h
    · split at h
      · exact setBorder_pokes_pair _ _ _ _ h
      · injection h with h
        rw [← h]
  · split at h
    · split at h
      · exact setBorder_pokes_pair _ _ _ _ h
      · split at h
        · exact setBorder_pokes_pair _ _ _ _ h
        · injection h with h
          rw [← h]
    · injection h with h
      rw [← h]

theorem pokeBoundaryColStep_pokes (sCols : Int) (b : Board) (row col : Int)
    (dxn : DiagonalDirection) (r : Board × Bool)
    (h : pokeBoundaryColStep sCols b row col dxn = .ok r) : r.1.pokes = b.pokes := by
  simp only [pokeBoundaryColStep] at h
  split at h
  · split at h
    · exact setBorder_pokes_pair _ _ _ _ h
    · split at h
      · exact setBorder_pokes_pair _ _ _ _ h
      · injection h with h
        rw [← h]
  · split at h
    · split at h
      · exact setBorder_pokes_pair _ _ _ _ h
      · split at h
        · exact setBorder_pokes_pair _ _ _ _ h
        · injection h with h
          rw [← h]
    · injection h with h
      rw [← h]

theorem pokeBoundaryStep_pokes (sCols : Int) (b : Board) (row col : Int)
    (dxn : DiagonalDirection) (r : Board × Bool)
    (h : pokeBoundaryStep sCols b row col dxn = .ok r) : r.1.pokes = b.pokes := by
  unfold pokeBoundaryStep at h
  split at h
  · exact absurd h (by simp)
  · split at h
    · exact absurd h (by simp)
    · split at h
      · exact absurd h (by simp)
      · split at h
        · exact absurd h (by simp)
        · obtain ⟨r1, hr1, h2⟩ := (except_bind_ok _ _ _).mp h
          obtain ⟨r2, hr2, h3⟩ := (except_bind_ok _ _ _).mp h2
          injection h3 with h3
          rw [← h3]
          show r2.1.pokes = b.pokes
          rw [pokeBoundaryColStep_pokes sCols r1.1 row col dxn r2 hr2,
            pokeBoundaryRowStep_pokes sCols b row col dxn r1 hr1]

/-- Helper: neither poke propagation function ever removes a triple from
the poke set of the board (pokes grow monotonically), for every fuel. -/
theorem poke_pokes_mono (fuel : Nat) :
    (∀ (sRows sCols : Int) (b : Board) (row col : Int) (d : DiagonalDirection)
      (r : Board × Bool),
      pokeInitiatePoke sRows sCols fuel b row col d = .ok r →
      ∀ x, x ∈ b.pokes → x ∈ r.1.pokes) ∧
    (∀ (sRows sCols : Int) (b : Board) (row col : Int) (d : DiagonalDirection)
      (r : Board × Bool),
      pokeHandleCellPoke sRows sCols fuel b row col d = .ok r →
      ∀ x, x ∈ b.pokes → x ∈ r.1.pokes) := by
  induction fuel with
  | zero =>
    constructor
    · intro sRows sCols b row col d r h
      simp [pokeInitiatePoke] at h
    · intro sRows sCols b row col d r h
      simp [pokeHandleCellPoke] at h
  | succ n ih =>
    constructor
    · intro sRows sCols b row col d r h x hx
      unfold pokeInitiatePoke at h
      split at h
      · injection h with h
        rw [← h]
        exact hx
      · dsimp only at h
        split at h
        · refine ih.2 sRows sCols _ _ _ _ r h x ?_
          split <;> exact List.mem_cons_of_mem _ hx
        · split at h
          · exact absurd h (by simp)
          · rw [activateFirstLoop_pokes _ _ r h]
            split <;> exact List.mem_cons_of_mem _ hx
    · intro sRows sCols b row col d r h x hx
      unfold pokeHandleCellPoke at h
      dsimp only at h
      obtain ⟨r1, hr1, h2⟩ := (except_bind_ok _ _ _).mp h
      obtain ⟨r2, hr2, h3⟩ := (except_bind_ok _ _ _).mp h2
      have hx1 : x ∈ r1.1.pokes := by
        rw [pokeCornerStep_pokes _ _ _ _ _ _ hr1]
        split <;> exact hx
      have hx2 : x ∈ r2.1.pokes := by
        split at hr2
        · rw [setBordersAccum_pokes _ _ _ _ _ hr2]
          exact hx1
        · split at hr2
          · obtain ⟨ra, hra, hrb⟩ := (except_bind_ok _ _ _).mp hr2
            obtain ⟨rb, hrbp, hrfin⟩ := (except_bind_ok _ _ _).mp hrb
            have hpa : ra.1.pokes = r1.1.pokes := by
              split at hra
              · exact setBorder_pokes_pair _ _ _ _ hra
              · split at hra
                · exact setBorder_pokes_pair _ _ _ _ hra
                · injection hra with hra
                  rw [← hra]
            have hxb : x ∈ rb.1.pokes :=
              ih.1 sRows sCols ra.1 row col d.opposite rb hrbp x
                (by rw [hpa]; exact hx1)
            injection hrfin with hrfin
            rw [← hrfin]
            exact hxb
          · split at hr2
            · obtain ⟨ra, hra, hrc⟩ := (except_bind_ok _ _ _).mp hr2
              have hpa : ra.1.pokes = r1.1.pokes := setBordersAccum_pokes _ _ _ _ _ hra
              split at hrc
              · exact absurd hrc (by simp)
              · split at hrc
                · rw [setUnsetBordersAccum_pokes _ _ _ _ _ hrc, hpa]
                  exact hx1
                · injection hrc with hrc
                  rw [← hrc]
                  rw [← hpa] at hx1
                  exact hx1
            · injection hr2 with hr2
              rw [← hr2]
              exact hx1
      split at h3 <;>
        (try split at h3) <;>
        first
          | (rw [pokeBoundaryStep_pokes _ _ _ _ _ _ h3]; exact hx2)
          | (injection h3 with h3; rw [← h3]; exact hx2)

/-- C6 counterexample: Solver.initiatePoke (the method of the Solver class
in src/src/puzzle/solver/solver.py) propagates a poke from cell (0, 0)
toward LRIGHT through the diagonal neighbour of the concrete 2-by-2 board
and completes without recording ANY triple in the poke set of the board
(the result poke set is empty), refuting the claim that every
initiate-poke propagation records its (row, col, direction) triple. -/
theorem c6_counterexample :
    solverResultPokes (solverInitiatePoke 2 2 5 (unknownCornerEntryMatrix 2 2)
      cexBoardC6 0 0 .LRIGHT) = some [] ∧
    cexBoardC6.pokes = [] := by
  constructor
  · rfl
  · rfl

/-- C6 amended: the standalone initiatePoke of
src/src/puzzle/solver/sub/poke.py does behave as the claim states — a
successful propagation always leaves the (row, col, direction) triple
recorded in the poke set of the resulting board, and a poke whose triple
is already recorded returns False immediately without touching the board —
whereas the Solver.initiatePoke method of src/src/puzzle/solver/solver.py
(see the counterexample) maintains no such memo. -/
theorem c6_poke_memoization :
    (∀ (sRows sCols : Int) (fuel : Nat) (b : Board) (row col : Int)
      (d : DiagonalDirection),
      (row, col, d) ∈ b.pokes →
      pokeInitiatePoke sRows sCols (fuel + 1) b row col d = .ok (b, false)) ∧
    (∀ (sRows sCols : Int) (fuel : Nat) (b : Board) (row col : Int)
      (d : DiagonalDirection) (r : Board × Bool),
      pokeInitiatePoke sRows sCols fuel b row col d = .ok r →
      (row, col, d) ∈ r.1.pokes) := by
  constructor
  · intro sRows sCols fuel b row col d hmem
    unfold pokeInitiatePoke
    rw [if_pos hmem]
  · intro sRows sCols fuel b row col d r h
    cases fuel with
    | zero => simp [pokeInitiatePoke] at h
    | succ n =>
      unfold pokeInitiatePoke at h
      split at h
      · rename_i hmem
        injection h with h
        rw [← h]
        exact hmem
      · dsimp only at h
        split at h
        · refine (poke_pokes_mono n).2 sRows sCols _ _ _ _ r h (row, col, d) ?_
          split <;> exact List.mem_cons_self _ _
        · split at h
          · exact absurd h (by simp)
          · rw [activateFirstLoop_pokes _ _ r h]
            split <;> exact List.mem_cons_self _ _

/-- C6 witness: the memo conjunct applied to a concrete board whose poke
set already holds the triple (0, 0, LRIGHT). -/
theorem c6_witness :
    pokeInitiatePoke 2 2 3
      { cexBoardC6 with pokes := [(0, 0, DiagonalDirection.LRIGHT)] }
      0 0 DiagonalDirection.LRIGHT =
    .ok ({ cexBoardC6 with pokes := [(0, 0, DiagonalDirection.LRIGHT)] }, false) :=
  c6_poke_memoization.1 2 2 2
    { cexBoardC6 with pokes := [(0, 0, DiagonalDirection.LRIGHT)] }
    0 0 DiagonalDirection.LRIGHT (by decide)

/-- Helper: one unrolling of the threshold loop of _isBorderHorizontal. -/
theorem isBorderHorizontalLoop_succ (cols b t : Int) (hz : Bool) (fuel : Nat) :
    isBorderHorizontalLoop cols b t hz (fuel + 1) =
      if b < t then hz
      else if hz then isBorderHorizontalLoop cols b (t + cols + 1) false fuel
      else isBorderHorizontalLoop cols b (t + cols) true fuel := rfl

/-- Helper: shifting both the border index and the threshold by the same
amount leaves the loop result unchanged. -/
theorem isBorderHorizontalLoop_shift (cols k : Int) :
    ∀ (fuel : Nat) (b t : Int) (hz : Bool),
      isBorderHorizontalLoop cols b t hz fuel =
      isBorderHorizontalLoop cols (b - k) (t - k) hz fuel := by
  intro fuel
  induction fuel with
  | zero => intro b t hz; rfl
  | succ n ih =>
    intro b t hz
    rw [isBorderHorizontalLoop_succ, isBorderHorizontalLoop_succ]
    by_cases hbt : b < t
    · have hbt2 : b - k < t - k := by omega
      rw [if_pos hbt, if_pos hbt2]
    · have hbt2 : ¬(b - k < t - k) := by omega
      rw [if_neg hbt, if_neg hbt2]
      cases hz with
      | true =>
        rw [if_pos rfl, if_pos rfl, ih]
        rw [(by omega : t + cols + 1 - k = t - k + cols + 1)]
      | false =>
        rw [if_neg (by simp), if_neg (by simp), ih]
        rw [(by omega : t + cols - k = t - k + cols)]

/-- Helper: with enough fuel the loop decides whether the remainder of the
border index modulo the band stride 2 * cols + 1 lies in the horizontal
band, by strong induction on the border index. -/
theorem isBorderHorizontalLoop_char (cols : Int) (hc : 1 ≤ cols) :
    ∀ (n : Nat) (b : Int), b.toNat = n → 0 ≤ b →
      ∀ fuel, 2 * n + 2 ≤ fuel →
      isBorderHorizontalLoop cols b cols true fuel =
        decide (b % (cols * 2 + 1) < cols) := by
  intro n
  induction n using Nat.strong_induction_on with
  | _ n ih =>
    intro b hbn hb fuel hfuel
    obtain ⟨f, rfl⟩ : ∃ f, fuel = f + 2 := ⟨fuel - 2, by omega⟩
    by_cases h1 : b < cols
    · rw [isBorderHorizontalLoop_succ, if_pos h1]
      have hm : b % (cols * 2 + 1) = b := Int.emod_eq_of_lt hb (by omega)
      rw [hm]
      simp [h1]
    · push_neg at h1
      have h1n : ¬(b < cols) := by omega
      rw [isBorderHorizontalLoop_succ, if_neg h1n, if_pos rfl]
      by_cases h2 : b < cols * 2 + 1
      · have h2p : b < cols + cols + 1 := by omega
        rw [isBorderHorizontalLoop_succ, if_pos h2p]
        have hm : b % (cols * 2 + 1) = b := Int.emod_eq_of_lt hb (by omega)
        rw [hm]
        simp [h1n]
      · push_neg at h2
        have h2n : ¬(b < cols + cols + 1) := by omega
        rw [isBorderHorizontalLoop_succ, if_neg h2n, if_neg (by simp)]
        rw [isBorderHorizontalLoop_shift cols (cols * 2 + 1)]
        rw [(by omega : cols + cols + 1 + cols - (cols * 2 + 1) = cols)]
        have hb' : 0 ≤ b - (cols * 2 + 1) := by omega
        have hlt : (b - (cols * 2 + 1)).toNat < n := by omega
        rw [ih _ hlt _ rfl hb' f (by omega)]
        refine decide_eq_decide.mpr ?_
        have hsub : b - (cols * 2 + 1) = b + (cols * 2 + 1) * (-1) := by ring
        rw [hsub, Int.add_mul_emod_self_left]

/-- Helper: closed form of _isBorderHorizontal for nonnegative border
indices: the border is horizontal exactly when its remainder modulo
2 * cols + 1 is below cols. -/
theorem isBorderHorizontal_eq (cols b : Int) (hc : 1 ≤ cols) (hb : 0 ≤ b) :
    isBorderHorizontal cols b = decide (b % (cols * 2 + 1) < cols) :=
  isBorderHorizontalLoop_char cols hc b.toNat b rfl hb _ (by omega)

/-- Helper: euclidean quotient and remainder of an explicit decomposition. -/
theorem ediv_emod_decomp (S r u : Int) (hS : 0 < S) (h0 : 0 ≤ u) (h1 : u < S) :
    (S * r + u) / S = r ∧ (S * r + u) % S = u := by
  constructor
  · rw [add_comm, Int.add_mul_ediv_left u r (by omega : S ≠ 0),
      Int.ediv_eq_zero_of_lt h0 h1, zero_add]
  · rw [add_comm, Int.add_mul_emod_self_left, Int.emod_eq_of_lt h0 h1]

/-- Helper: _isValidBorderIdx unfolded to its arithmetic meaning. -/
theorem isValidBorderIdx_iff (rows cols x : Int) :
    isValidBorderIdx rows cols x = true ↔
      (0 ≤ x ∧ x < (cols * 2 + 1) * rows + cols) := by
  unfold isValidBorderIdx numBorders
  simp [ge_iff_le]

/-- Helper: membership of a vertex pair among the two endpoints of a
border, unfolded to quotient-remainder arithmetic. -/
theorem isEndpointOf_decomp (cols x a q : Int) :
    isEndpointOf cols (a, q) x ↔
      (if x % (cols * 2 + 1) < cols
       then ((a = x / (cols * 2 + 1) ∧ q = x % (cols * 2 + 1)) ∨
             (a = x / (cols * 2 + 1) ∧ q = x % (cols * 2 + 1) + 1))
       else ((a = x / (cols * 2 + 1) ∧ q = x % (cols * 2 + 1) - cols) ∨
             (a = x / (cols * 2 + 1) + 1 ∧ q = x % (cols * 2 + 1) - cols))) := by
  unfold isEndpointOf borderEndpoints
  dsimp only
  split
  · simp [Prod.ext_iff]
  · simp [Prod.ext_iff]

/-- Helper: membership in an optional singleton produced by a guard. -/
theorem mem_opt_singleton (x a : Int) (g : Prop) [Decidable g] :
    (x ∈ (if g then [a] else ([] : List Int))) ↔ (g ∧ x = a) := by
  split
  · rename_i h; simp [h]
  · rename_i h; simp [h]

/-- Helper: membership in an optional singleton produced by two nested
guards. -/
theorem mem_opt_singleton2 (x a : Int) (g h : Prop) [Decidable g] [Decidable h] :
    (x ∈ (if g then (if h then [a] else []) else ([] : List Int))) ↔
      (g ∧ h ∧ x = a) := by
  split
  · rename_i hg; rw [mem_opt_singleton]; simp [hg]
  · rename_i hg; simp [hg]

/-- Helper: for a valid horizontal border, the first connected-border group
holds exactly the valid borders other than the border itself that touch its
left endpoint. -/
theorem conn1_h_mem (rows cols i1 x : Int) (hc : 1 ≤ cols)
    (hv : isValidBorderIdx rows cols i1 = true)
    (hh : i1 % (cols * 2 + 1) < cols) :
    (x ∈ (getConnectedBorders rows cols i1).1 ↔
      (isValidBorderIdx rows cols x = true ∧ x ≠ i1 ∧
        isEndpointOf cols (i1 / (cols * 2 + 1), i1 % (cols * 2 + 1)) x)) := by
  have hS : (0:Int) < cols * 2 + 1 := by omega
  obtain ⟨r1, m1, hm0, hmS, rfl⟩ :
      ∃ r m, 0 ≤ m ∧ m < cols * 2 + 1 ∧ i1 = (cols * 2 + 1) * r + m :=
    ⟨i1 / (cols * 2 + 1), i1 % (cols * 2 + 1), Int.emod_nonneg i1 (by omega),
      Int.emod_lt_of_pos i1 hS, (Int.ediv_add_emod i1 (cols * 2 + 1)).symm⟩
  have hdiv := (ediv_emod_decomp (cols * 2 + 1) r1 m1 hS hm0 hmS).1
  have hmod := (ediv_emod_decomp (cols * 2 + 1) r1 m1 hS hm0 hmS).2
  rw [hmod] at hh
  rw [hdiv, hmod]
  have h0i : 0 ≤ (cols * 2 + 1) * r1 + m1 :=
    ((isValidBorderIdx_iff rows cols _).mp hv).1
  have hhor : isBorderHorizontal cols ((cols * 2 + 1) * r1 + m1) = true := by
    rw [isBorderHorizontal_eq cols _ hc h0i, hmod]
    exact decide_eq_true hh
  unfold getConnectedBorders
  rw [if_pos hhor]
  dsimp only
  rw [List.mem_append, List.mem_append, mem_opt_singleton, mem_opt_singleton2,
    mem_opt_singleton]
  constructor
  · rintro ((⟨hval, rfl⟩ | ⟨hg, hval, rfl⟩) | ⟨hval, rfl⟩)
    · refine ⟨hval, by intro he; linarith, ?_⟩
      rw [(by ring : (cols * 2 + 1) * r1 + m1 - (cols + 1) =
        (cols * 2 + 1) * (r1 - 1) + (m1 + cols))]
      rw [isEndpointOf_decomp,
        (ediv_emod_decomp (cols * 2 + 1) (r1 - 1) (m1 + cols) hS (by omega) (by omega)).1,
        (ediv_emod_decomp (cols * 2 + 1) (r1 - 1) (m1 + cols) hS (by omega) (by omega)).2,
        if_neg (by omega)]
      right
      exact ⟨by ring, by ring⟩
    · have h0b : 0 ≤ (cols * 2 + 1) * r1 + m1 - 1 :=
        ((isValidBorderIdx_iff rows cols _).mp hval).1
      by_cases hm1 : 1 ≤ m1
      · refine ⟨hval, by intro he; linarith, ?_⟩
        rw [(by ring : (cols * 2 + 1) * r1 + m1 - 1 =
          (cols * 2 + 1) * r1 + (m1 - 1))]
        rw [isEndpointOf_decomp,
          (ediv_emod_decomp (cols * 2 + 1) r1 (m1 - 1) hS (by omega) (by omega)).1,
          (ediv_emod_decomp (cols * 2 + 1) r1 (m1 - 1) hS (by omega) (by omega)).2,
          if_pos (by omega)]
        right
        exact ⟨rfl, by ring⟩
      · exfalso
        rw [isBorderHorizontal_eq cols _ hc h0b,
          (by ring : (cols * 2 + 1) * r1 + m1 - 1 =
            (cols * 2 + 1) * (r1 - 1) + (m1 + cols * 2)),
          (ediv_emod_decomp (cols * 2 + 1) (r1 - 1) (m1 + cols * 2) hS (by omega) (by omega)).2]
          at hg
        have := of_decide_eq_true hg
        omega
    · refine ⟨hval, by intro he; linarith, ?_⟩
      rw [(by ring : (cols * 2 + 1) * r1 + m1 + cols =
        (cols * 2 + 1) * r1 + (m1 + cols))]
      rw [isEndpointOf_decomp,
        (ediv_emod_decomp (cols * 2 + 1) r1 (m1 + cols) hS (by omega) (by omega)).1,
        (ediv_emod_decomp (cols * 2 + 1) r1 (m1 + cols) hS (by omega) (by omega)).2,
        if_neg (by omega)]
      left
      exact ⟨rfl, by ring⟩
  · rintro ⟨hvx, hne, hep⟩
    have h0x : 0 ≤ x := ((isValidBorderIdx_iff rows cols x).mp hvx).1
    obtain ⟨rx, mx, hmx0, hmxS, rfl⟩ :
        ∃ r m, 0 ≤ m ∧ m < cols * 2 + 1 ∧ x = (cols * 2 + 1) * r + m :=
      ⟨x / (cols * 2 + 1), x % (cols * 2 + 1), Int.emod_nonneg x (by omega),
        Int.emod_lt_of_pos x hS, (Int.ediv_add_emod x (cols * 2 + 1)).symm⟩
    rw [isEndpointOf_decomp,
      (ediv_emod_decomp (cols * 2 + 1) rx mx hS hmx0 hmxS).1,
      (ediv_emod_decomp (cols * 2 + 1) rx mx hS hmx0 hmxS).2] at hep
    by_cases hcase : mx < cols
    · rw [if_pos hcase] at hep
      rcases hep with ⟨h1, h2⟩ | ⟨h1, h2⟩
      · exact absurd (by rw [h1, h2]) hne
      · rw [h1, h2]
        refine Or.inl (Or.inr ⟨?_, ?_, by ring⟩)
        · rw [(by ring : (cols * 2 + 1) * rx + (mx + 1) - 1 =
            (cols * 2 + 1) * rx + mx)]
          rw [isBorderHorizontal_eq cols _ hc h0x,
            (ediv_emod_decomp (cols * 2 + 1) rx mx hS hmx0 hmxS).2]
          exact decide_eq_true hcase
        · rw [(by ring : (cols * 2 + 1) * rx + (mx + 1) - 1 =
            (cols * 2 + 1) * rx + mx)]
          exact hvx
    · rw [if_neg hcase] at hep
      rcases hep with ⟨h1, h2⟩ | ⟨h1, h2⟩
      · rw [h1, h2]
        refine Or.inr ⟨?_, by ring⟩
        rw [(by ring : (cols * 2 + 1) * rx + (mx - cols) + cols =
          (cols * 2 + 1) * rx + mx)]
        exact hvx
      · rw [h1, h2]
        refine Or.inl (Or.inl ⟨?_, by ring⟩)
        rw [(by ring : (cols * 2 + 1) * (rx + 1) + (mx - cols) - (cols + 1) =
          (cols * 2 + 1) * rx + mx)]
        exact hvx

/-- Helper: for a valid horizontal border, the second connected-border
group holds exactly the valid borders other than the border itself that
touch its right endpoint. -/
theorem conn2_h_mem (rows cols i1 x : Int) (hc : 1 ≤ cols)
    (hv : isValidBorderIdx rows cols i1 = true)
    (hh : i1 % (cols * 2 + 1) < cols) :
    (x ∈ (getConnectedBorders rows cols i1).2 ↔
      (isValidBorderIdx rows cols x = true ∧ x ≠ i1 ∧
        isEndpointOf cols (i1 / (cols * 2 + 1), i1 % (cols * 2 + 1) + 1) x)) := by
  have hS : (0:Int) < cols * 2 + 1 := by omega
  obtain ⟨r1, m1, hm0, hmS, rfl⟩ :
      ∃ r m, 0 ≤ m ∧ m < cols * 2 + 1 ∧ i1 = (cols * 2 + 1) * r + m :=
    ⟨i1 / (cols * 2 + 1), i1 % (cols * 2 + 1), Int.emod_nonneg i1 (by omega),
      Int.emod_lt_of_pos i1 hS, (Int.ediv_add_emod i1 (cols * 2 + 1)).symm⟩
  have hdiv := (ediv_emod_decomp (cols * 2 + 1) r1 m1 hS hm0 hmS).1
  have hmod := (ediv_emod_decomp (cols * 2 + 1) r1 m1 hS hm0 hmS).2
  rw [hmod] at hh
  rw [hdiv, hmod]
  have h0i : 0 ≤ (cols * 2 + 1) * r1 + m1 :=
    ((isValidBorderIdx_iff rows cols _).mp hv).1
  have hhor : isBorderHorizontal cols ((cols * 2 + 1) * r1 + m1) = true := by
    rw [isBorderHorizontal_eq cols _ hc h0i, hmod]
    exact decide_eq_true hh
  unfold getConnectedBorders
  rw [if_pos hhor]
  dsimp only
  rw [List.mem_append, List.mem_append, mem_opt_singleton, mem_opt_singleton2,
    mem_opt_singleton]
  constructor
  · rintro ((⟨hval, rfl⟩ | ⟨hg, hval, rfl⟩) | ⟨hval, rfl⟩)
    · refine ⟨hval, by intro he; linarith, ?_⟩
      rw [(by ring : (cols * 2 + 1) * r1 + m1 - cols =
        (cols * 2 + 1) * (r1 - 1) + (m1 + cols + 1))]
      rw [isEndpointOf_decomp,
        (ediv_emod_decomp (cols * 2 + 1) (r1 - 1) (m1 + cols + 1) hS (by omega) (by omega)).1,
        (ediv_emod_decomp (cols * 2 + 1) (r1 - 1) (m1 + cols + 1) hS (by omega) (by omega)).2,
        if_neg (by omega)]
      right
      exact ⟨by ring, by ring⟩
    · have h0b : 0 ≤ (cols * 2 + 1) * r1 + m1 + 1 :=
        ((isValidBorderIdx_iff rows cols _).mp hval).1
      by_cases hm1 : m1 + 1 < cols
      · refine ⟨hval, by intro he; linarith, ?_⟩
        rw [(by ring : (cols * 2 + 1) * r1 + m1 + 1 =
          (cols * 2 + 1) * r1 + (m1 + 1))]
        rw [isEndpointOf_decomp,
          (ediv_emod_decomp (cols * 2 + 1) r1 (m1 + 1) hS (by omega) (by omega)).1,
          (ediv_emod_decomp (cols * 2 + 1) r1 (m1 + 1) hS (by omega) (by omega)).2,
          if_pos (by omega)]
        left
        exact ⟨rfl, rfl⟩
      · exfalso
        rw [isBorderHorizontal_eq cols _ hc h0b,
          (by ring : (cols * 2 + 1) * r1 + m1 + 1 =
            (cols * 2 + 1) * r1 + (m1 + 1)),
          (ediv_emod_decomp (cols * 2 + 1) r1 (m1 + 1) hS (by omega) (by omega)).2]
          at hg
        have := of_decide_eq_true hg
        omega
    · refine ⟨hval, by intro he; linarith, ?_⟩
      rw [(by ring : (cols * 2 + 1) * r1 + m1 + cols + 1 =
        (cols * 2 + 1) * r1 + (m1 + cols + 1))]
      rw [isEndpointOf_decomp,
        (ediv_emod_decomp (cols * 2 + 1) r1 (m1 + cols + 1) hS (by omega) (by omega)).1,
        (ediv_emod_decomp (cols * 2 + 1) r1 (m1 + cols + 1) hS (by omega) (by omega)).2,
        if_neg (by omega)]
      left
      exact ⟨rfl, by ring⟩
  · rintro ⟨hvx, hne, hep⟩
    have h0x : 0 ≤ x := ((isValidBorderIdx_iff rows cols x).mp hvx).1
    obtain ⟨rx, mx, hmx0, hmxS, rfl⟩ :
        ∃ r m, 0 ≤ m ∧ m < cols * 2 + 1 ∧ x = (cols * 2 + 1) * r + m :=
      ⟨x / (cols * 2 + 1), x % (cols * 2 + 1), Int.emod_nonneg x (by omega),
        Int.emod_lt_of_pos x hS, (Int.ediv_add_emod x (cols * 2 + 1)).symm⟩
    rw [isEndpointOf_decomp,
      (ediv_emod_decomp (cols * 2 + 1) rx mx hS hmx0 hmxS).1,
      (ediv_emod_decomp (cols * 2 + 1) rx mx hS hmx0 hmxS).2] at hep
    by_cases hcase : mx < cols
    · rw [if_pos hcase] at hep
      rcases hep with ⟨h1, h2⟩ | ⟨h1, h2⟩
      · rw [h1, (by omega : m1 = mx - 1)]
        refine Or.inl (Or.inr ⟨?_, ?_, by ring⟩)
        · rw [(by ring : (cols * 2 + 1) * rx + (mx - 1) + 1 =
            (cols * 2 + 1) * rx + mx)]
          rw [isBorderHorizontal_eq cols _ hc h0x,
            (ediv_emod_decomp (cols * 2 + 1) rx mx hS hmx0 hmxS).2]
          exact decide_eq_true hcase
        · rw [(by ring : (cols * 2 + 1) * rx + (mx - 1) + 1 =
            (cols * 2 + 1) * rx + mx)]
          exact hvx
      · exact absurd (by rw [h1, (by omega : m1 = mx)]) hne
    · rw [if_neg hcase] at hep
      rcases hep with ⟨h1, h2⟩ | ⟨h1, h2⟩
      · rw [h1, (by omega : m1 = mx - cols - 1)]
        refine Or.inr ⟨?_, by ring⟩
        rw [(by ring : (cols * 2 + 1) * rx + (mx - cols - 1) + cols + 1 =
          (cols * 2 + 1) * rx + mx)]
        exact hvx
      · rw [h1, (by omega : m1 = mx - cols - 1)]
        refine Or.inl (Or.inl ⟨?_, by ring⟩)
        rw [(by ring : (cols * 2 + 1) * (rx + 1) + (mx - cols - 1) - cols =
          (cols * 2 + 1) * rx + mx)]
        exact hvx

/-- Helper: for a valid vertical border, the first connected-border group
holds exactly the valid borders other than the border itself that touch its
top endpoint. -/
theorem conn1_v_mem (rows cols i1 x : Int) (hc : 1 ≤ cols)
    (hv : isValidBorderIdx rows cols i1 = true)
    (hh : ¬(i1 % (cols * 2 + 1) < cols)) :
    (x ∈ (getConnectedBorders rows cols i1).1 ↔
      (isValidBorderIdx rows cols x = true ∧ x ≠ i1 ∧
        isEndpointOf cols (i1 / (cols * 2 + 1), i1 % (cols * 2 + 1) - cols) x)) := by
  have hS : (0:Int) < cols * 2 + 1 := by omega
  obtain ⟨r1, m1, hm0, hmS, rfl⟩ :
      ∃ r m, 0 ≤ m ∧ m < cols * 2 + 1 ∧ i1 = (cols * 2 + 1) * r + m :=
    ⟨i1 / (cols * 2 + 1), i1 % (cols * 2 + 1), Int.emod_nonneg i1 (by omega),
      Int.emod_lt_of_pos i1 hS, (Int.ediv_add_emod i1 (cols * 2 + 1)).symm⟩
  have hdiv := (ediv_emod_decomp (cols * 2 + 1) r1 m1 hS hm0 hmS).1
  have hmod := (ediv_emod_decomp (cols * 2 + 1) r1 m1 hS hm0 hmS).2
  rw [hmod] at hh
  rw [hdiv, hmod]
  have h0i : 0 ≤ (cols * 2 + 1) * r1 + m1 :=
    ((isValidBorderIdx_iff rows cols _).mp hv).1
  have hfor : isBorderHorizontal cols ((cols * 2 + 1) * r1 + m1) = false := by
    rw [isBorderHorizontal_eq cols _ hc h0i, hmod]
    exact decide_eq_false hh
  unfold getConnectedBorders
  rw [if_neg (by rw [hfor]; simp)]
  dsimp only
  rw [List.mem_append, List.mem_append, mem_opt_singleton2, mem_opt_singleton,
    mem_opt_singleton2]
  constructor
  · rintro ((⟨hval, hg, rfl⟩ | ⟨hval, rfl⟩) | ⟨hval, hg, rfl⟩)
    · have h0b : 0 ≤ (cols * 2 + 1) * r1 + m1 - (cols + 1) :=
        ((isValidBorderIdx_iff rows cols _).mp hval).1
      by_cases hm1 : cols + 1 ≤ m1
      · refine ⟨hval, by intro he; linarith, ?_⟩
        rw [(by ring : (cols * 2 + 1) * r1 + m1 - (cols + 1) =
          (cols * 2 + 1) * r1 + (m1 - cols - 1))]
        rw [isEndpointOf_decomp,
          (ediv_emod_decomp (cols * 2 + 1) r1 (m1 - cols - 1) hS (by omega) (by omega)).1,
          (ediv_emod_decomp (cols * 2 + 1) r1 (m1 - cols - 1) hS (by omega) (by omega)).2,
          if_pos (by omega)]
        right
        exact ⟨rfl, by ring⟩
      · exfalso
        rw [isBorderHorizontal_eq cols _ hc h0b,
          (by ring : (cols * 2 + 1) * r1 + m1 - (cols + 1) =
            (cols * 2 + 1) * (r1 - 1) + (m1 + cols)),
          (ediv_emod_decomp (cols * 2 + 1) (r1 - 1) (m1 + cols) hS (by omega) (by omega)).2]
          at hg
        have := of_decide_eq_true hg
        omega
    · refine ⟨hval, by intro he; linarith, ?_⟩
      rw [(by ring : (cols * 2 + 1) * r1 + m1 - (cols * 2 + 1) =
        (cols * 2 + 1) * (r1 - 1) + m1)]
      rw [isEndpointOf_decomp,
        (ediv_emod_decomp (cols * 2 + 1) (r1 - 1) m1 hS hm0 hmS).1,
        (ediv_emod_decomp (cols * 2 + 1) (r1 - 1) m1 hS hm0 hmS).2,
        if_neg hh]
      right
      exact ⟨by ring, rfl⟩
    · have h0b : 0 ≤ (cols * 2 + 1) * r1 + m1 - cols :=
        ((isValidBorderIdx_iff rows cols _).mp hval).1
      by_cases hm2 : m1 - cols < cols
      · refine ⟨hval, by intro he; linarith, ?_⟩
        rw [(by ring : (cols * 2 + 1) * r1 + m1 - cols =
          (cols * 2 + 1) * r1 + (m1 - cols))]
        rw [isEndpointOf_decomp,
          (ediv_emod_decomp (cols * 2 + 1) r1 (m1 - cols) hS (by omega) (by omega)).1,
          (ediv_emod_decomp (cols * 2 + 1) r1 (m1 - cols) hS (by omega) (by omega)).2,
          if_pos hm2]
        left
        exact ⟨rfl, rfl⟩
      · exfalso
        rw [isBorderHorizontal_eq cols _ hc h0b,
          (by ring : (cols * 2 + 1) * r1 + m1 - cols =
            (cols * 2 + 1) * r1 + (m1 - cols)),
          (ediv_emod_decomp (cols * 2 + 1) r1 (m1 - cols) hS (by omega) (by omega)).2]
          at hg
        have := of_decide_eq_true hg
        omega
  · rintro ⟨hvx, hne, hep⟩
    have h0x : 0 ≤ x := ((isValidBorderIdx_iff rows cols x).mp hvx).1
    obtain ⟨rx, mx, hmx0, hmxS, rfl⟩ :
        ∃ r m, 0 ≤ m ∧ m < cols * 2 + 1 ∧ x = (cols * 2 + 1) * r + m :=
      ⟨x / (cols * 2 + 1), x % (cols * 2 + 1), Int.emod_nonneg x (by omega),
        Int.emod_lt_of_pos x hS, (Int.ediv_add_emod x (cols * 2 + 1)).symm⟩
    rw [isEndpointOf_decomp,
      (ediv_emod_decomp (cols * 2 + 1) rx mx hS hmx0 hmxS).1,
      (ediv_emod_decomp (cols * 2 + 1) rx mx hS hmx0 hmxS).2] at hep
    by_cases hcase : mx < cols
    · rw [if_pos hcase] at hep
      rcases hep with ⟨h1, h2⟩ | ⟨h1, h2⟩
      · rw [h1, (by omega : m1 = mx + cols)]
        refine Or.inr ⟨?_, ?_, by ring⟩
        · rw [(by ring : (cols * 2 + 1) * rx + (mx + cols) - cols =
            (cols * 2 + 1) * rx + mx)]
          exact hvx
        · rw [(by ring : (cols * 2 + 1) * rx + (mx + cols) - cols =
            (cols * 2 + 1) * rx + mx)]
          rw [isBorderHorizontal_eq cols _ hc h0x,
            (ediv_emod_decomp (cols * 2 + 1) rx mx hS hmx0 hmxS).2]
          exact decide_eq_true hcase
      · rw [h1, (by omega : m1 = mx + cols + 1)]
        refine Or.inl (Or.inl ⟨?_, ?_, by ring⟩)
        · rw [(by ring : (cols * 2 + 1) * rx + (mx + cols + 1) - (cols + 1) =
            (cols * 2 + 1) * rx + mx)]
          exact hvx
        · rw [(by ring : (cols * 2 + 1) * rx + (mx + cols + 1) - (cols + 1) =
            (cols * 2 + 1) * rx + mx)]
          rw [isBorderHorizontal_eq cols _ hc h0x,
            (ediv_emod_decomp (cols * 2 + 1) rx mx hS hmx0 hmxS).2]
          exact decide_eq_true hcase
    · rw [if_neg hcase] at hep
      rcases hep with ⟨h1, h2⟩ | ⟨h1, h2⟩
      · exact absurd (by rw [h1, (by omega : m1 = mx)]) hne
      · rw [h1, (by omega : m1 = mx)]
        refine Or.inl (Or.inr ⟨?_, by ring⟩)
        rw [(by ring : (cols * 2 + 1) * (rx + 1) + mx - (cols * 2 + 1) =
          (cols * 2 + 1) * rx + mx)]
        exact hvx

/-- Helper: for a valid vertical border, the second connected-border group
holds exactly the valid borders other than the border itself that touch its
bottom endpoint. -/
theorem conn2_v_mem (rows cols i1 x : Int) (hc : 1 ≤ cols)
    (hv : isValidBorderIdx rows cols i1 = true)
    (hh : ¬(i1 % (cols * 2 + 1) < cols)) :
    (x ∈ (getConnectedBorders rows cols i1).2 ↔
      (isValidBorderIdx rows cols x = true ∧ x ≠ i1 ∧
        isEndpointOf cols (i1 / (cols * 2 + 1) + 1, i1 % (cols * 2 + 1) - cols) x)) := by
  have hS : (0:Int) < cols * 2 + 1 := by omega
  obtain ⟨r1, m1, hm0, hmS, rfl⟩ :
      ∃ r m, 0 ≤ m ∧ m < cols * 2 + 1 ∧ i1 = (cols * 2 + 1) * r + m :=
    ⟨i1 / (cols * 2 + 1), i1 % (cols * 2 + 1), Int.emod_nonneg i1 (by omega),
      Int.emod_lt_of_pos i1 hS, (Int.ediv_add_emod i1 (cols * 2 + 1)).symm⟩
  have hdiv := (ediv_emod_decomp (cols * 2 + 1) r1 m1 hS hm0 hmS).1
  have hmod := (ediv_emod_decomp (cols * 2 + 1) r1 m1 hS hm0 hmS).2
  rw [hmod] at hh
  rw [hdiv, hmod]
  have h0i : 0 ≤ (cols * 2 + 1) * r1 + m1 :=
    ((isValidBorderIdx_iff rows cols _).mp hv).1
  have hfor : isBorderHorizontal cols ((cols * 2 + 1) * r1 + m1) = false := by
    rw [isBorderHorizontal_eq cols _ hc h0i, hmod]
    exact decide_eq_false hh
  unfold getConnectedBorders
  rw [if_neg (by rw [hfor]; simp)]
  dsimp only
  rw [List.mem_append, List.mem_append, mem_opt_singleton2, mem_opt_singleton,
    mem_opt_singleton2]
  constructor
  · rintro ((⟨hval, hg, rfl⟩ | ⟨hval, rfl⟩) | ⟨hval, hg, rfl⟩)
    · have h0b : 0 ≤ (cols * 2 + 1) * r1 + m1 + cols :=
        ((isValidBorderIdx_iff rows cols _).mp hval).1
      by_cases hm1 : cols + 1 ≤ m1
      · refine ⟨hval, by intro he; linarith, ?_⟩
        rw [(by ring : (cols * 2 + 1) * r1 + m1 + cols =
          (cols * 2 + 1) * (r1 + 1) + (m1 - cols - 1))]
        rw [isEndpointOf_decomp,
          (ediv_emod_decomp (cols * 2 + 1) (r1 + 1) (m1 - cols - 1) hS (by omega) (by omega)).1,
          (ediv_emod_decomp (cols * 2 + 1) (r1 + 1) (m1 - cols - 1) hS (by omega) (by omega)).2,
          if_pos (by omega)]
        right
        exact ⟨rfl, by ring⟩
      · exfalso
        rw [isBorderHorizontal_eq cols _ hc h0b,
          (by ring : (cols * 2 + 1) * r1 + m1 + cols =
            (cols * 2 + 1) * r1 + (m1 + cols)),
          (ediv_emod_decomp (cols * 2 + 1) r1 (m1 + cols) hS (by omega) (by omega)).2]
          at hg
        have := of_decide_eq_true hg
        omega
    · refine ⟨hval, by intro he; linarith, ?_⟩
      rw [(by ring : (cols * 2 + 1) * r1 + m1 + (cols * 2 + 1) =
        (cols * 2 + 1) * (r1 + 1) + m1)]
      rw [isEndpointOf_decomp,
        (ediv_emod_decomp (cols * 2 + 1) (r1 + 1) m1 hS hm0 hmS).1,
        (ediv_emod_decomp (cols * 2 + 1) (r1 + 1) m1 hS hm0 hmS).2,
        if_neg hh]
      left
      exact ⟨rfl, rfl⟩
    · have h0b : 0 ≤ (cols * 2 + 1) * r1 + m1 + cols + 1 :=
        ((isValidBorderIdx_iff rows cols _).mp hval).1
      by_cases hm2 : m1 - cols < cols
      · refine ⟨hval, by intro he; linarith, ?_⟩
        rw [(by ring : (cols * 2 + 1) * r1 + m1 + cols + 1 =
          (cols * 2 + 1) * (r1 + 1) + (m1 - cols))]
        rw [isEndpointOf_decomp,
          (ediv_emod_decomp (cols * 2 + 1) (r1 + 1) (m1 - cols) hS (by omega) (by omega)).1,
          (ediv_emod_decomp (cols * 2 + 1) (r1 + 1) (m1 - cols) hS (by omega) (by omega)).2,
          if_pos hm2]
        left
        exact ⟨rfl, rfl⟩
      · exfalso
        rw [isBorderHorizontal_eq cols _ hc h0b,
          (by ring : (cols * 2 + 1) * r1 + m1 + cols + 1 =
            (cols * 2 + 1) * (r1 + 1) + (m1 - cols)),
          (ediv_emod_decomp (cols * 2 + 1) (r1 + 1) (m1 - cols) hS (by omega) (by omega)).2]
          at hg
        have := of_decide_eq_true hg
        omega
  · rintro ⟨hvx, hne, hep⟩
    have h0x : 0 ≤ x := ((isValidBorderIdx_iff rows cols x).mp hvx).1
    obtain ⟨rx, mx, hmx0, hmxS, rfl⟩ :
        ∃ r m, 0 ≤ m ∧ m < cols * 2 + 1 ∧ x = (cols * 2 + 1) * r + m :=
      ⟨x / (cols * 2 + 1), x % (cols * 2 + 1), Int.emod_nonneg x (by omega),
        Int.emod_lt_of_pos x hS, (Int.ediv_add_emod x (cols * 2 + 1)).symm⟩
    rw [isEndpointOf_decomp,
      (ediv_emod_decomp (cols * 2 + 1) rx mx hS hmx0 hmxS).1,
      (ediv_emod_decomp (cols * 2 + 1) rx mx hS hmx0 hmxS).2] at hep
    by_cases hcase : mx < cols
    · rw [if_pos hcase] at hep
      rcases hep with ⟨h1, h2⟩ | ⟨h1, h2⟩
      · rw [(by omega : r1 = rx - 1), (by omega : m1 = mx + cols)]
        refine Or.inr ⟨?_, ?_, by ring⟩
        · rw [(by ring : (cols * 2 + 1) * (rx - 1) + (mx + cols) + cols + 1 =
            (cols * 2 + 1) * rx + mx)]
          exact hvx
        · rw [(by ring : (cols * 2 + 1) * (rx - 1) + (mx + cols) + cols + 1 =
            (cols * 2 + 1) * rx + mx)]
          rw [isBorderHorizontal_eq cols _ hc h0x,
            (ediv_emod_decomp (cols * 2 + 1) rx mx hS hmx0 hmxS).2]
          exact decide_eq_true hcase
      · rw [(by omega : r1 = rx - 1), (by omega : m1 = mx + cols + 1)]
        refine Or.inl (Or.inl ⟨?_, ?_, by ring⟩)
        · rw [(by ring : (cols * 2 + 1) * (rx - 1) + (mx + cols + 1) + cols =
            (cols * 2 + 1) * rx + mx)]
          exact hvx
        · rw [(by ring : (cols * 2 + 1) * (rx - 1) + (mx + cols + 1) + cols =
            (cols * 2 + 1) * rx + mx)]
          rw [isBorderHorizontal_eq cols _ hc h0x,
            (ediv_emod_decomp (cols * 2 + 1) rx mx hS hmx0 hmxS).2]
          exact decide_eq_true hcase
    · rw [if_neg hcase] at hep
      rcases hep with ⟨h1, h2⟩ | ⟨h1, h2⟩
      · rw [(by omega : r1 = rx - 1), (by omega : m1 = mx)]
        refine Or.inl (Or.inr ⟨?_, by ring⟩)
        rw [(by ring : (cols * 2 + 1) * (rx - 1) + mx + (cols * 2 + 1) =
          (cols * 2 + 1) * rx + mx)]
        exact hvx
      · exact absurd (by rw [(by omega : r1 = rx), (by omega : m1 = mx)]) hne

/-- Helper: the endpoint pair of a horizontal border. -/
theorem borderEndpoints_h (cols i1 : Int) (h : i1 % (cols * 2 + 1) < cols) :
    borderEndpoints cols i1 =
      ((i1 / (cols * 2 + 1), i1 % (cols * 2 + 1)),
       (i1 / (cols * 2 + 1), i1 % (cols * 2 + 1) + 1)) := by
  unfold borderEndpoints
  dsimp only
  rw [if_pos h]

/-- Helper: the endpoint pair of a vertical border. -/
theorem borderEndpoints_v (cols i1 : Int) (h : ¬(i1 % (cols * 2 + 1) < cols)) :
    borderEndpoints cols i1 =
      ((i1 / (cols * 2 + 1), i1 % (cols * 2 + 1) - cols),
       (i1 / (cols * 2 + 1) + 1, i1 % (cols * 2 + 1) - cols)) := by
  unfold borderEndpoints
  dsimp only
  rw [if_neg h]

/-- C7 amended: for every pair of valid border indices idx1 and idx2 of a
grid with at least one column, when getCommonVertex(idx1, idx2) returns a
list there is a vertex shared by idx1 and idx2 such that the list holds
exactly the valid borders other than idx1 itself having that vertex as an
endpoint (so idx2 is in the list, but idx1 never is); and when it returns
None, either idx2 equals idx1 or no vertex is an endpoint of both. -/
theorem c7_getCommonVertex (rows cols i1 i2 : Int) (hc : 1 ≤ cols)
    (h1 : isValidBorderIdx rows cols i1 = true)
    (h2 : isValidBorderIdx rows cols i2 = true) :
    (∀ l, getCommonVertex rows cols i1 i2 = some l →
      ∃ v, isEndpointOf cols v i1 ∧ isEndpointOf cols v i2 ∧
        ∀ x, (x ∈ l ↔ (isValidBorderIdx rows cols x = true ∧ x ≠ i1 ∧
          isEndpointOf cols v x))) ∧
    (getCommonVertex rows cols i1 i2 = none →
      i2 = i1 ∨ ∀ v, ¬(isEndpointOf cols v i1 ∧ isEndpointOf cols v i2)) := by
  unfold getCommonVertex
  dsimp only
  by_cases hor : i1 % (cols * 2 + 1) < cols
  · by_cases hA : i2 ∈ (getConnectedBorders rows cols i1).1
    · rw [if_pos hA]
      constructor
      · intro l hl
        injection hl with hl
        subst hl
        refine ⟨(i1 / (cols * 2 + 1), i1 % (cols * 2 + 1)), ?_, ?_, ?_⟩
        · unfold isEndpointOf
          rw [borderEndpoints_h cols i1 hor]
          left
          rfl
        · exact ((conn1_h_mem rows cols i1 i2 hc h1 hor).mp hA).2.2
        · intro x
          exact conn1_h_mem rows cols i1 x hc h1 hor
      · intro hnone
        exact Option.noConfusion hnone
    · rw [if_neg hA]
      by_cases hB : i2 ∈ (getConnectedBorders rows cols i1).2
      · rw [if_pos hB]
        constructor
        · intro l hl
          injection hl with hl
          subst hl
          refine ⟨(i1 / (cols * 2 + 1), i1 % (cols * 2 + 1) + 1), ?_, ?_, ?_⟩
          · unfold isEndpointOf
            rw [borderEndpoints_h cols i1 hor]
            right
            rfl
          · exact ((conn2_h_mem rows cols i1 i2 hc h1 hor).mp hB).2.2
          · intro x
            exact conn2_h_mem rows cols i1 x hc h1 hor
        · intro hnone
          exact Option.noConfusion hnone
      · rw [if_neg hB]
        constructor
        · intro l hl
          exact Option.noConfusion hl
        · intro _
          by_cases heq : i2 = i1
          · exact Or.inl heq
          · refine Or.inr ?_
            intro v hv
            obtain ⟨hv1, hv2⟩ := hv
            unfold isEndpointOf at hv1
            rw [borderEndpoints_h cols i1 hor] at hv1
            rcases hv1 with rfl | rfl
            · exact hA ((conn1_h_mem rows cols i1 i2 hc h1 hor).mpr ⟨h2, heq, hv2⟩)
            · exact hB ((conn2_h_mem rows cols i1 i2 hc h1 hor).mpr ⟨h2, heq, hv2⟩)
  · by_cases hA : i2 ∈ (getConnectedBorders rows cols i1).1
    · rw [if_pos hA]
      constructor
      · intro l hl
        injection hl with hl
        subst hl
        refine ⟨(i1 / (cols * 2 + 1), i1 % (cols * 2 + 1) - cols), ?_, ?_, ?_⟩
        · unfold isEndpointOf
          rw [borderEndpoints_v cols i1 hor]
          left
          rfl
        · exact ((conn1_v_mem rows cols i1 i2 hc h1 hor).mp hA).2.2
        · intro x
          exact conn1_v_mem rows cols i1 x hc h1 hor
      · intro hnone
        exact Option.noConfusion hnone
    · rw [if_neg hA]
      by_cases hB : i2 ∈ (getConnectedBorders rows cols i1).2
      · rw [if_pos hB]
        constructor
        · intro l hl
          injection hl with hl
          subst hl
          refine ⟨(i1 / (cols * 2 + 1) + 1, i1 % (cols * 2 + 1) - cols), ?_, ?_, ?_⟩
          · unfold isEndpointOf
            rw [borderEndpoints_v cols i1 hor]
            right
            rfl
          · exact ((conn2_v_mem rows cols i1 i2 hc h1 hor).mp hB).2.2
          · intro x
            exact conn2_v_mem rows cols i1 x hc h1 hor
        · intro hnone
          exact Option.noConfusion hnone
      · rw [if_neg hB]
        constructor
        · intro l hl
          exact Option.noConfusion hl
        · intro _
          by_cases heq : i2 = i1
          · exact Or.inl heq
          · refine Or.inr ?_
            intro v hv
            obtain ⟨hv1, hv2⟩ := hv
            unfold isEndpointOf at hv1
            rw [borderEndpoints_v cols i1 hor] at hv1
            rcases hv1 with rfl | rfl
            · exact hA ((conn1_v_mem rows cols i1 i2 hc h1 hor).mpr ⟨h2, heq, hv2⟩)
            · exact hB ((conn2_v_mem rows cols i1 i2 hc h1 hor).mpr ⟨h2, heq, hv2⟩)

/-- C7 counterexample: on a 2-by-2 board, border 0 (the top edge of cell
(0, 0)) and border 2 (the left edge of cell (0, 0)) share the corner
vertex (0, 0), yet getCommonVertex(0, 2) returns the list [2], which does
not contain the first index 0 itself, refuting the claim that the returned
list includes both idx1 and idx2; and on the identical pair (0, 0), which
trivially shares an endpoint, getCommonVertex returns None instead of the
borders at a shared endpoint. -/
theorem c7_counterexample :
    getCommonVertex 2 2 0 2 = some [2] ∧
    isEndpointOf 2 (0, 0) 0 ∧ isEndpointOf 2 (0, 0) 2 ∧
    (0:Int) ∉ ([2] : List Int) ∧
    getCommonVertex 2 2 0 0 = none := by
  refine ⟨by decide, by decide, by decide, by decide, by decide⟩

/-- C7 witness: the amended theorem applied to borders 0 and 2 of the
2-by-2 grid, where getCommonVertex returns the list [2]. -/
theorem c7_witness :
    ∃ v, isEndpointOf 2 v 0 ∧ isEndpointOf 2 v 2 ∧
      ∀ x, (x ∈ ([2] : List Int) ↔ (isValidBorderIdx 2 2 x = true ∧ x ≠ 0 ∧
        isEndpointOf 2 v x)) :=
  (c7_getCommonVertex 2 2 0 2 (by decide) (by decide) (by decide)).1 [2] (by decide)

/-- C8: the two-argument internal helper _isBorderHorizontal of
board_tools.py is correct: for a grid with at least one column and a
nonnegative border index, it returns True exactly when the two endpoints of
the border lie on the same vertex row (a horizontal border) and False when
they lie on the same vertex column. The claim nevertheless fails for the
public wrapper BoardTools.isBorderHorizontal (board_tools.py line 57),
which forwards only the border index to this two-argument helper and
therefore raises a TypeError on every call instead of returning a
boolean. -/
theorem c8_isBorderHorizontal_internal (cols b : Int) (hc : 1 ≤ cols) (hb : 0 ≤ b) :
    (isBorderHorizontal cols b = true ↔
      (borderEndpoints cols b).1.1 = (borderEndpoints cols b).2.1) := by
  rw [isBorderHorizontal_eq cols b hc hb]
  by_cases h : b % (cols * 2 + 1) < cols
  · rw [borderEndpoints_h cols b h]
    simp [h]
  · rw [borderEndpoints_v cols b h]
    simp [h]

/-- C8 witness: the characterization applied to border 3 of a 2-column
grid, a vertical border whose endpoints lie on distinct rows 0 and 1. -/
theorem c8_witness :
    ((1:Int) ≤ 2 ∧ (0:Int) ≤ 3) ∧
    (isBorderHorizontal 2 3 = true ↔
      (borderEndpoints 2 3).1.1 = (borderEndpoints 2 3).2.1) :=
  ⟨⟨by decide, by decide⟩, c8_isBorderHorizontal_internal 2 3 (by decide) (by decide)⟩
